import Mathlib

set_option linter.unusedVariables false

namespace DodgeServer

/-!
Shallow embedding of `src/server.js`, a WebSocket relay server for a
cooperative multiplayer dodge game.  JavaScript objects with string keys are
modelled as insertion-ordered association lists (`lookupA`, `setA`, `removeA`,
`keysA` mirror property read, property write, `delete`, and `Object.keys`);
JavaScript `Set`s are modelled as duplicate-free insertion-ordered lists
(`addS`, `delS`).  A JavaScript `TypeError` thrown by dereferencing an
`undefined` property (`room.players[playerId].ready = ...` when `playerId` is
not a key) is modelled by `Except.error ()`.
-/

def lookupA {κ α : Type} [DecidableEq κ] : List (κ × α) → κ → Option α
  | [], _ => none
  | (k', v) :: rest, k => if k' = k then some v else lookupA rest k

def setA {κ α : Type} [DecidableEq κ] : List (κ × α) → κ → α → List (κ × α)
  | [], k, v => [(k, v)]
  | (k', v') :: rest, k, v => if k' = k then (k, v) :: rest else (k', v') :: setA rest k v

def removeA {κ α : Type} [DecidableEq κ] (m : List (κ × α)) (k : κ) : List (κ × α) :=
  m.filter (fun p => p.1 ≠ k)

def keysA {κ α : Type} (m : List (κ × α)) : List κ := m.map (fun p => p.1)

/-- JavaScript `Set.prototype.add`: append if absent, keeping insertion order. -/
def addS (s : List String) (x : String) : List String := if x ∈ s then s else s ++ [x]

/-- JavaScript `Set.prototype.delete`. -/
def delS (s : List String) (x : String) : List String := s.filter (fun y => y ≠ x)

/-!
Decimal representation.  The JavaScript expression `baseName + counter`
coerces the number `counter` to its decimal string; for naturals this is
exactly `Nat.repr`.  We prove `Nat.repr` injective (needed for the pigeonhole
argument that the name-collision loop of `join_room` terminates on a fresh
name) by relating it to a structurally recursive digit function.
-/

def decDigits (n : Nat) : List Char :=
  if h : n < 10 then [Nat.digitChar n]
  else decDigits (n / 10) ++ [Nat.digitChar (n % 10)]
decreasing_by exact Nat.div_lt_self (by omega) (by omega)

/-- The `while (rooms[code].players[playerId])` loop of `join_room`, with the
trial counter made explicit.  `fuel + 1` candidates are examined starting at
suffix `k`; by `exists_free_suffix` the fuel `keys.length + 1` never runs out. -/
def findSuffix (base : String) (keys : List String) : Nat → Nat → Nat
  | 0, k => k
  | fuel + 1, k => if base ++ Nat.repr k ∈ keys then findSuffix base keys fuel (k + 1) else k

/-- Name-collision resolution of `join_room` (source lines 116–122): the
requested name unchanged if free, otherwise the first free `name1`, `name2`, …. -/
def resolveName (base : String) (keys : List String) : String :=
  if base ∈ keys then base ++ Nat.repr (findSuffix base keys (keys.length + 1) 1) else base

/-!
Data model.  `Pos` models a reported `{x, y}` pair (JSON numbers, treated as
opaque integers).  `Player` and `Room` mirror the objects built at source
lines 66–84; `Session` holds the per-connection `let playerRoomCode` /
`let playerId` variables of the `wss.on('connection', ...)` closure.
-/

structure Pos where
  x : Int
  y : Int
deriving DecidableEq, Repr

structure Player where
  ws : Nat
  name : String
  ready : Bool
  alive : Bool
  position : Pos
  color : String
deriving DecidableEq, Repr

structure Room where
  host : String
  players : List (String × Player)
  started : Bool
  current_level : Nat
  level_wins : List (String × Nat)
  ready_players : List String
  finished_players : List String
  death_placeholders : List (String × Pos)
deriving DecidableEq, Repr

structure Session where
  playerRoomCode : Option String
  playerId : Option String
deriving DecidableEq, Repr

abbrev Rooms := List (String × Room)

/-- Roster entry sent in `room_joined` (name/ready/color, source lines 136–143). -/
structure RosterEntry where
  name : String
  ready : Bool
  color : String
deriving DecidableEq, Repr

/-- Roster entry sent in `game_start` (name/color, source lines 219–222). -/
structure StartEntry where
  name : String
  color : String
deriving DecidableEq, Repr

/-- Outbound messages, one constructor per `type` value written by the server. -/
inductive Out where
  | room_created (room_code player_id : String) (is_host : Bool)
  | error (message : String)
  | room_joined (room_code player_id : String) (is_host : Bool)
      (players : List (String × RosterEntry)) (host : String)
  | player_joined (player_id player_name color : String)
  | player_ready_update (player_id : String) (ready : Bool) (ready_count total_count : Nat)
  | game_start (level : Nat) (players : List (String × StartEntry)) (your_id : String)
  | player_moved (player_id : String) (x y : Int)
  | player_died (player_id : String) (x y : Int)
  | you_died (x y : Int)
  | player_revived (revived_id reviver_id : String) (x y : Int)
  | player_finished (player_id : String) (is_first : Bool) (finished_count total_count : Nat)
      (level_wins : List (String × Nat))
  | next_level (level : Nat) (level_wins : List (String × Nat))
  | game_over (level_wins : List (String × Nat))
  | lobby_player_moved (player_id : String) (x y : Int)
  | player_left (player_id : String)
  | new_host (host_id : String)
deriving DecidableEq, Repr

/-- A send issued to the transport: target connection and message.  Delivery
is best-effort (the transport drops sends to connections that are not open);
we reason at the level of issued sends. -/
abbrev Send := Nat × Out

/-- Inbound client messages, one constructor per recognized `type`.  The
`code` field of `create_room` models the fresh code produced by the
`do … while (rooms[code])` retry loop around `generateRoomCode()`; the `rnd`
field of `join_room` models `Math.floor(Math.random() * 999)` used for the
default player name.  Malformed payloads and unrecognized types are dropped
by the outer `switch`/`try` and need no constructor. -/
inductive CMsg where
  | create_room (code player_name color : String)
  | join_room (room_code player_name color : String) (rnd : Nat)
  | player_ready (ready : Bool)
  | start_game
  | player_position (x y : Int)
  | player_died (x y : Int)
  | revive_player (target_id : String)
  | player_finished
  | lobby_position (x y : Int)
deriving DecidableEq, Repr

inductive Event where
  | connect (c : Nat)
  | msg (c : Nat) (m : CMsg)
  | close (c : Nat)
  | fire (c : Nat)
deriving DecidableEq, Repr

def spawnPos : Pos := ⟨360, 400⟩

/-- JavaScript `String.prototype.toUpperCase()`, modelled as mapping
`Char.toUpper` over the characters (room codes are ASCII, where the two
agree). -/
def toUpperStr (s : String) : String := ⟨s.data.map Char.toUpper⟩

/-- Message handler case `create_room` (source lines 56–95).  `code` is the
output of the collision-checked generator, so it is 4 characters long and not
a current key of `rooms`; an event violating that models no real run of the
generator and is a no-op. -/
def handleCreateRoom (rooms : Rooms) (c : Nat) (sess : Session)
    (code pname color : String) : Rooms × Session × List Send :=
  if code.length = 4 ∧ lookupA rooms code = none then
    let pid := if pname = "" then "Player1" else pname
    let player : Player := ⟨c, pid, false, true, spawnPos, if color = "" then "#4dff7c" else color⟩
    let room : Room := ⟨pid, [(pid, player)], false, 1, [], [], [], []⟩
    (setA rooms code room, ⟨some code, some pid⟩, [(c, Out.room_created code pid true)])
  else (rooms, sess, [])

/-- Message handler case `join_room` (source lines 97–164).  Note the session
`playerId` is overwritten (line 99) before any of the three error checks. -/
def handleJoinRoom (rooms : Rooms) (c : Nat) (sess : Session)
    (room_code pname color : String) (rnd : Nat) : Rooms × Session × List Send :=
  let code := toUpperStr room_code
  let pid0 := if pname = "" then "Player" ++ Nat.repr rnd else pname
  match lookupA rooms code with
  | none => (rooms, { sess with playerId := some pid0 }, [(c, Out.error "Room not found")])
  | some room =>
    if room.started then
      (rooms, { sess with playerId := some pid0 }, [(c, Out.error "Game already started")])
    else if 10 ≤ (keysA room.players).length then
      (rooms, { sess with playerId := some pid0 }, [(c, Out.error "Room is full")])
    else
      let pid := resolveName pid0 (keysA room.players)
      let player : Player := ⟨c, pid, false, true, spawnPos, if color = "" then "#ff6b6b" else color⟩
      let room' := { room with players := setA room.players pid player }
      let existingPlayers := room'.players.map
        (fun p => (p.1, RosterEntry.mk p.2.name p.2.ready p.2.color))
      (setA rooms code room', ⟨some code, some pid⟩,
        (c, Out.room_joined code pid false existingPlayers room.host) ::
        (room'.players.filter (fun p => p.2.ws ≠ c)).map
          (fun p => (p.2.ws, Out.player_joined pid pid player.color)))

/-- Message handler case `player_ready` (source lines 166–186).  When the
bound `playerId` is not a key of `room.players`, line 170 dereferences
`undefined` and throws. -/
def handlePlayerReady (rooms : Rooms) (sess : Session) (rdy : Bool) :
    Except Unit (Rooms × List Send) :=
  match sess.playerRoomCode with
  | none => .ok (rooms, [])
  | some rc =>
    match lookupA rooms rc with
    | none => .ok (rooms, [])
    | some room =>
      let pid := sess.playerId.getD "null"
      match lookupA room.players pid with
      | none => .error ()
      | some pl =>
        let players' := setA room.players pid { pl with ready := rdy }
        let rp' := if rdy then addS room.ready_players pid else delS room.ready_players pid
        let room' := { room with players := players', ready_players := rp' }
        .ok (setA rooms rc room',
          room'.players.map (fun p =>
            (p.2.ws, Out.player_ready_update pid rdy rp'.length (keysA players').length)))

/-- Message handler case `start_game` (source lines 188–235). -/
def handleStartGame (rooms : Rooms) (c : Nat) (sess : Session) : Rooms × List Send :=
  match sess.playerRoomCode with
  | none => (rooms, [])
  | some rc =>
    match lookupA rooms rc with
    | none => (rooms, [])
    | some room =>
      let pid := sess.playerId.getD "null"
      if pid ≠ room.host then (rooms, [])
      else if room.ready_players.length < (keysA room.players).length then
        (rooms, [(c, Out.error "Not all players are ready")])
      else
        let players' := room.players.map (fun p => (p.1, { p.2 with alive := true }))
        let lw' := (keysA room.players).foldl (fun lw id =>
          match lookupA lw id with
          | some v => if v = 0 then setA lw id 0 else lw
          | none => setA lw id 0) room.level_wins
        let room' := { room with
          started := true, current_level := 1, finished_players := [],
          death_placeholders := [], players := players', level_wins := lw' }
        let playerList := players'.map (fun p => (p.1, StartEntry.mk p.2.name p.2.color))
        (setA rooms rc room',
          players'.map (fun p => (p.2.ws, Out.game_start 1 playerList p.1)))

/-- Message handler case `player_position` (source lines 237–247): pure relay
to everyone whose connection differs from the sender's. -/
def handlePlayerPosition (rooms : Rooms) (c : Nat) (sess : Session) (x y : Int) : List Send :=
  match sess.playerRoomCode with
  | none => []
  | some rc =>
    match lookupA rooms rc with
    | none => []
    | some room =>
      let pid := sess.playerId.getD "null"
      (room.players.filter (fun p => p.2.ws ≠ c)).map
        (fun p => (p.2.ws, Out.player_moved pid x y))

/-- Message handler case `player_died` (source lines 249–270). -/
def handlePlayerDied (rooms : Rooms) (c : Nat) (sess : Session) (x y : Int) :
    Except Unit (Rooms × List Send) :=
  match sess.playerRoomCode with
  | none => .ok (rooms, [])
  | some rc =>
    match lookupA rooms rc with
    | none => .ok (rooms, [])
    | some room =>
      let pid := sess.playerId.getD "null"
      match lookupA room.players pid with
      | none => .error ()
      | some pl =>
        let players' := setA room.players pid { pl with alive := false }
        let dp' := setA room.death_placeholders pid ⟨x, y⟩
        let room' := { room with players := players', death_placeholders := dp' }
        .ok (setA rooms rc room',
          ((room'.players.filter (fun p => p.2.ws ≠ c)).map
            (fun p => (p.2.ws, Out.player_died pid x y))) ++
          [(c, Out.you_died x y)])

/-- Message handler case `revive_player` (source lines 272–296). -/
def handleRevivePlayer (rooms : Rooms) (sess : Session) (target_id : String) :
    Except Unit (Rooms × List Send) :=
  match sess.playerRoomCode with
  | none => .ok (rooms, [])
  | some rc =>
    match lookupA rooms rc with
    | none => .ok (rooms, [])
    | some room =>
      let pid := sess.playerId.getD "null"
      match lookupA room.death_placeholders target_id with
      | none => .ok (rooms, [])
      | some pos =>
        match lookupA room.players target_id with
        | none => .error ()
        | some pl =>
          let players' := setA room.players target_id { pl with alive := true }
          let dp' := removeA room.death_placeholders target_id
          let room' := { room with players := players', death_placeholders := dp' }
          .ok (setA rooms rc room',
            room'.players.map (fun p => (p.2.ws, Out.player_revived target_id pid pos.x pos.y)))

/-- Message handler case `player_finished` (source lines 298–329).  The third
component records whether a 3000ms `setTimeout` was scheduled (the first-
finisher branch, line 322). -/
def handlePlayerFinished (rooms : Rooms) (sess : Session) : Rooms × List Send × Bool :=
  match sess.playerRoomCode with
  | none => (rooms, [], false)
  | some rc =>
    match lookupA rooms rc with
    | none => (rooms, [], false)
    | some room =>
      let pid := sess.playerId.getD "null"
      let fin' := addS room.finished_players pid
      let lw' := if fin'.length = 1 then
          setA room.level_wins pid ((lookupA room.level_wins pid).getD 0 + 1)
        else room.level_wins
      let room' := { room with finished_players := fin', level_wins := lw' }
      (setA rooms rc room',
        room'.players.map (fun p =>
          (p.2.ws, Out.player_finished pid (decide (fin'.length = 1)) fin'.length
            (keysA room'.players).length lw')),
        decide (fin'.length = 1))

/-- Message handler case `lobby_position` (source lines 331–341). -/
def handleLobbyPosition (rooms : Rooms) (c : Nat) (sess : Session) (x y : Int) : List Send :=
  match sess.playerRoomCode with
  | none => []
  | some rc =>
    match lookupA rooms rc with
    | none => []
    | some room =>
      let pid := sess.playerId.getD "null"
      (room.players.filter (fun p => p.2.ws ≠ c)).map
        (fun p => (p.2.ws, Out.lobby_player_moved pid x y))

/-- Close handler (source lines 345–380). -/
def handleClose (rooms : Rooms) (sess : Session) : Rooms × List Send :=
  match sess.playerRoomCode with
  | none => (rooms, [])
  | some rc =>
    match lookupA rooms rc with
    | none => (rooms, [])
    | some room =>
      let pid := sess.playerId.getD "null"
      let players' := removeA room.players pid
      let rp' := delS room.ready_players pid
      let fin' := delS room.finished_players pid
      let dp' := removeA room.death_placeholders pid
      let room' := { room with
        players := players', ready_players := rp',
        finished_players := fin', death_placeholders := dp' }
      let outs1 := players'.map (fun p => (p.2.ws, Out.player_left pid))
      if (keysA players').length = 0 then
        (removeA rooms rc, outs1)
      else if room.host = pid then
        let newHost := (keysA players').headD ""
        (setA rooms rc { room' with host := newHost },
          outs1 ++ players'.map (fun p => (p.2.ws, Out.new_host newHost)))
      else (setA rooms rc room', outs1)

/-- The `advanceLevel` function (source lines 383–419). -/
def advanceLevel (rooms : Rooms) (roomCode : String) : Rooms × List Send :=
  match lookupA rooms roomCode with
  | none => (rooms, [])
  | some room =>
    let lvl' := room.current_level + 1
    let players' := room.players.map (fun p => (p.1, { p.2 with alive := true }))
    if 20 < lvl' then
      let room' := { room with
        current_level := lvl', finished_players := [],
        death_placeholders := [], players := players', started := false }
      (setA rooms roomCode room',
        players'.map (fun p => (p.2.ws, Out.game_over room.level_wins)))
    else
      let room' := { room with
        current_level := lvl', finished_players := [],
        death_placeholders := [], players := players' }
      (setA rooms roomCode room',
        players'.map (fun p => (p.2.ws, Out.next_level lvl' room.level_wins)))

/-- Whole-server state: the global `rooms` object, every connection's session
variables, the set of closed connections, and the pending 3000ms timers.  A
pending timer is recorded by the connection id whose handler scheduled it:
the `setTimeout` callback (source lines 323–326) reads that handler's
`playerRoomCode` variable afresh when it fires. -/
structure ServerState where
  rooms : Rooms
  sessions : List (Nat × Session)
  closed : List Nat
  timers : List Nat
deriving DecidableEq, Repr

def initState : ServerState := ⟨[], [], [], []⟩

/-- One event processed to completion (the single-threaded event loop).
`Except.error ()` models an uncaught JavaScript `TypeError`. -/
def step (s : ServerState) (e : Event) : Except Unit (ServerState × List Send) :=
  match e with
  | .connect c =>
    match lookupA s.sessions c with
    | some _ => .ok (s, [])
    | none => .ok ({ s with sessions := s.sessions ++ [(c, ⟨none, none⟩)] }, [])
  | .msg c m =>
    match lookupA s.sessions c with
    | none => .ok (s, [])
    | some sess =>
      if c ∈ s.closed then .ok (s, [])
      else
        match m with
        | .create_room code pname color =>
          let r := handleCreateRoom s.rooms c sess code pname color
          .ok ({ s with rooms := r.1, sessions := setA s.sessions c r.2.1 }, r.2.2)
        | .join_room room_code pname color rnd =>
          let r := handleJoinRoom s.rooms c sess room_code pname color rnd
          .ok ({ s with rooms := r.1, sessions := setA s.sessions c r.2.1 }, r.2.2)
        | .player_ready rdy =>
          match handlePlayerReady s.rooms sess rdy with
          | .error e => .error e
          | .ok (rooms', outs) => .ok ({ s with rooms := rooms' }, outs)
        | .start_game =>
          let r := handleStartGame s.rooms c sess
          .ok ({ s with rooms := r.1 }, r.2)
        | .player_position x y => .ok (s, handlePlayerPosition s.rooms c sess x y)
        | .player_died x y =>
          match handlePlayerDied s.rooms c sess x y with
          | .error e => .error e
          | .ok (rooms', outs) => .ok ({ s with rooms := rooms' }, outs)
        | .revive_player t =>
          match handleRevivePlayer s.rooms sess t with
          | .error e => .error e
          | .ok (rooms', outs) => .ok ({ s with rooms := rooms' }, outs)
        | .player_finished =>
          let r := handlePlayerFinished s.rooms sess
          .ok ({ s with
            rooms := r.1,
            timers := if r.2.2 then s.timers ++ [c] else s.timers }, r.2.1)
        | .lobby_position x y => .ok (s, handleLobbyPosition s.rooms c sess x y)
  | .close c =>
    match lookupA s.sessions c with
    | none => .ok (s, [])
    | some sess =>
      if c ∈ s.closed then .ok (s, [])
      else
        let r := handleClose s.rooms sess
        .ok ({ s with rooms := r.1, closed := c :: s.closed }, r.2)
  | .fire c =>
    if c ∈ s.timers then
      let timers' := s.timers.erase c
      match (lookupA s.sessions c).bind (fun ss => ss.playerRoomCode) with
      | some rc =>
        let r := advanceLevel s.rooms rc
        .ok ({ s with rooms := r.1, timers := timers' }, r.2)
      | none => .ok ({ s with timers := timers' }, [])
    else .ok (s, [])

def runEvents : ServerState → List Event → Except Unit ServerState
  | s, [] => .ok s
  | s, e :: rest =>
    match step s e with
    | .error err => .error err
    | .ok (s', _) => runEvents s' rest

def Reachable (s : ServerState) : Prop :=
  ∃ evts : List Event, runEvents initState evts = .ok s

/-! Concrete fixtures used by witness theorems. -/

def playerA : Player := ⟨0, "A", false, true, spawnPos, "#4dff7c"⟩

def playerB : Player := ⟨1, "B", false, true, spawnPos, "#ff6b6b"⟩

def roomAB : Room := ⟨"A", [("A", playerA), ("B", playerB)], false, 1, [], ["A", "B"], [], []⟩

def roomsAB : Rooms := [("AAAA", roomAB)]

def playerBdead : Player := ⟨1, "B", false, false, spawnPos, "#ff6b6b"⟩

def roomDead : Room :=
  ⟨"A", [("A", playerA), ("B", playerBdead)], true, 3, [("A", 1)], [], [], [("B", ⟨5, 6⟩)]⟩

def roomsDead : Rooms := [("AAAA", roomDead)]

def c2trace : List Event :=
  [Event.connect 0, Event.msg 0 (CMsg.create_room "AAAA" "A" ""),
   Event.msg 0 (CMsg.player_ready true), Event.msg 0 CMsg.start_game,
   Event.msg 0 CMsg.player_finished, Event.msg 0 CMsg.player_finished]

def c7trace : List Event :=
  [Event.connect 0, Event.msg 0 (CMsg.create_room "AAAA" "A" ""),
   Event.msg 0 (CMsg.join_room "ZZZZ" "B" "" 0),
   Event.msg 0 (CMsg.player_ready true)]

def c8pre : List Event :=
  [Event.connect 0, Event.msg 0 (CMsg.create_room "AAAA" "A" "")]

def c8trace : List Event :=
  c8pre ++ [Event.msg 0 (CMsg.join_room "ZZZZ" "B" "" 0)]

def roomB0 : Room := ⟨"B", [("B", ⟨0, "B", false, true, spawnPos, "#4dff7c"⟩)], false, 1, [], [], [], []⟩

def roomA0 : Room := ⟨"A", [("A", playerA)], false, 1, [], [], [], []⟩

def roomsOrphan : Rooms := [("AAAA", roomA0), ("BBBB", roomB0)]

def c9trace : List Event :=
  [Event.connect 0, Event.msg 0 (CMsg.create_room "AAAA" "A" ""),
   Event.msg 0 (CMsg.create_room "BBBB" "B" ""), Event.close 0]

/-!
Registry-shape machinery: every processed event either leaves the registry
alone, inserts a fresh room (level 1, lobby, empty win table), replaces one
existing room by a `RoomRel`-related one, or deletes one room.  This drives
the reachability invariants of C3 and the key-preservation part of C10.
-/

/-- Relation between a room and its replacement within one handler run:
`level_wins` keys never shrink, and `current_level`/`started` either stay,
are reset to `(1, true)` by `start_game`, or are bumped by `advanceLevel`
(which clears `started` beyond level 20). -/
def RoomRel (room room' : Room) : Prop :=
  keysA room.level_wins ⊆ keysA room'.level_wins ∧
  ((room'.current_level = room.current_level ∧ room'.started = room.started) ∨
   (room'.current_level = 1 ∧ room'.started = true) ∨
   (room'.current_level = room.current_level + 1 ∧
     (20 < room'.current_level → room'.started = false)))

/-- The possible effects of one processed event on the room registry. -/
def RoomsShape (rooms rooms' : Rooms) : Prop :=
  rooms' = rooms ∨
  (∃ code newroom, lookupA rooms code = none ∧ rooms' = setA rooms code newroom ∧
    newroom.current_level = 1 ∧ newroom.started = false ∧ newroom.level_wins = []) ∨
  (∃ code room room', lookupA rooms code = some room ∧ rooms' = setA rooms code room' ∧
    RoomRel room room') ∨
  (∃ code, rooms' = removeA rooms code)

/-- Lift of `RoomsShape` over a possibly-thrown handler result. -/
def ShapeE (rooms : Rooms) : Except Unit (Rooms × List Send) → Prop
  | .error _ => True
  | .ok res => RoomsShape rooms res.1

/-- The per-room facts maintained by every event: the level is at least 1,
and a level beyond 20 occurs only with the match ended (`started = false`). -/
def RoomsOk (rooms : Rooms) : Prop :=
  ∀ p ∈ rooms, 1 ≤ p.2.current_level ∧ (20 < p.2.current_level → p.2.started = false)

def c3trace : List Event :=
  [Event.connect 0, Event.msg 0 (CMsg.create_room "AAAA" "A" ""),
   Event.msg 0 (CMsg.player_ready true), Event.msg 0 CMsg.start_game] ++
  (List.replicate 21 [Event.msg 0 CMsg.player_finished, Event.fire 0]).flatten

theorem decDigits_small {n : Nat} (h : n < 10) : decDigits n = [Nat.digitChar n] := by
  conv_lhs => rw [decDigits]
  simp [h]

theorem decDigits_large {n : Nat} (h : ¬ n < 10) :
    decDigits n = decDigits (n / 10) ++ [Nat.digitChar (n % 10)] := by
  conv_lhs => rw [decDigits]
  simp [h]

theorem decDigits_ne_nil (n : Nat) : decDigits n ≠ [] := by
  by_cases h : n < 10
  · rw [decDigits_small h]; simp
  · rw [decDigits_large h]; simp

theorem toDigitsCore_eq_decDigits :
    ∀ (f n : Nat) (acc : List Char), n < f →
      Nat.toDigitsCore 10 f n acc = decDigits n ++ acc := by
  intro f
  induction f with
  | zero => intro n acc h; omega
  | succ f ih =>
    intro n acc h
    rw [Nat.toDigitsCore]
    by_cases h10 : n < 10
    · have hdiv : n / 10 = 0 := Nat.div_eq_of_lt h10
      have hmod : n % 10 = n := Nat.mod_eq_of_lt h10
      simp only [hdiv, if_pos rfl]
      rw [decDigits_small h10, hmod]
      rfl
    · have hdiv : ¬ (n / 10 = 0) := by omega
      simp only [if_neg hdiv]
      have hlt : n / 10 < f := by omega
      rw [ih (n / 10) (Nat.digitChar (n % 10) :: acc) hlt]
      rw [decDigits_large h10]
      simp

theorem repr_eq_decDigits (n : Nat) : Nat.repr n = (decDigits n).asString := by
  have h : Nat.toDigitsCore 10 (n + 1) n [] = decDigits n ++ [] :=
    toDigitsCore_eq_decDigits (n + 1) n [] (by omega)
  simp only [Nat.repr, Nat.toDigits, h, List.append_nil]

theorem digitChar_inj_lt : ∀ a < 10, ∀ b < 10, Nat.digitChar a = Nat.digitChar b → a = b := by
  decide

theorem decDigits_injective : ∀ m n : Nat, decDigits m = decDigits n → m = n := by
  intro m
  induction m using Nat.strong_induction_on with
  | _ m ih =>
    intro n h
    by_cases hm : m < 10
    · by_cases hn : n < 10
      · rw [decDigits_small hm, decDigits_small hn] at h
        have h' : Nat.digitChar m = Nat.digitChar n := by injection h
        exact digitChar_inj_lt m hm n hn h'
      · rw [decDigits_small hm, decDigits_large hn] at h
        have hlen := congrArg List.length h
        simp only [List.length_append, List.length_cons, List.length_nil] at hlen
        have h0 : (decDigits (n / 10)).length = 0 := by omega
        exact absurd (List.eq_nil_of_length_eq_zero h0) (decDigits_ne_nil _)
    · by_cases hn : n < 10
      · rw [decDigits_large hm, decDigits_small hn] at h
        have hlen := congrArg List.length h
        simp only [List.length_append, List.length_cons, List.length_nil] at hlen
        have h0 : (decDigits (m / 10)).length = 0 := by omega
        exact absurd (List.eq_nil_of_length_eq_zero h0) (decDigits_ne_nil _)
      · rw [decDigits_large hm, decDigits_large hn] at h
        have hlen : ([Nat.digitChar (m % 10)] : List Char).length =
            ([Nat.digitChar (n % 10)] : List Char).length := rfl
        obtain ⟨h1, h2⟩ := List.append_inj' h hlen
        have hmod : m % 10 = n % 10 := by
          apply digitChar_inj_lt (m % 10) (by omega) (n % 10) (by omega)
          injection h2
        have hdiv : m / 10 = n / 10 := ih (m / 10) (Nat.div_lt_self (by omega) (by omega)) _ h1
        omega

theorem repr_injective : ∀ m n : Nat, Nat.repr m = Nat.repr n → m = n := by
  intro m n h
  rw [repr_eq_decDigits, repr_eq_decDigits] at h
  apply decDigits_injective
  exact congrArg String.data h

theorem string_append_left_cancel : ∀ a s t : String, a ++ s = a ++ t → s = t := by
  intro ⟨a⟩ ⟨s⟩ ⟨t⟩ h
  have h' : a ++ s = a ++ t := congrArg String.data h
  exact congrArg String.mk (List.append_cancel_left h')

/-- Pigeonhole: among the candidates `base ++ "1"`, …, `base ++ (len+1)` at
least one is not a key of the (length-`len`) player map, so the while loop of
`join_room` finds a free name within `keys.length + 1` iterations. -/
theorem exists_free_suffix (base : String) (keys : List String) :
    ∃ j : Nat, j < keys.length + 1 ∧ base ++ Nat.repr (1 + j) ∉ keys := by
  by_contra hall
  push_neg at hall
  have hmem : ∀ j : Fin (keys.length + 1), base ++ Nat.repr (1 + j.1) ∈ keys.toFinset := by
    intro j
    rw [List.mem_toFinset]
    exact hall j.1 j.2
  have hinj : Set.InjOn (fun j : Fin (keys.length + 1) => base ++ Nat.repr (1 + j.1))
      (Finset.univ : Finset (Fin (keys.length + 1))) := by
    intro i _ j _ hij
    have := repr_injective _ _ (string_append_left_cancel _ _ _ hij)
    exact Fin.ext (by omega)
  have hcard := Finset.card_le_card_of_injOn _ (fun j _ => hmem j) hinj
  have h1 : (Finset.univ : Finset (Fin (keys.length + 1))).card = keys.length + 1 := by
    simp
  have h2 : keys.toFinset.card ≤ keys.length := keys.toFinset_card_le
  omega

theorem findSuffix_spec (base : String) (keys : List String) :
    ∀ (fuel k : Nat), (∃ j, j < fuel ∧ base ++ Nat.repr (k + j) ∉ keys) →
      (base ++ Nat.repr (findSuffix base keys fuel k) ∉ keys ∧
       k ≤ findSuffix base keys fuel k ∧
       ∀ j, k ≤ j → j < findSuffix base keys fuel k → base ++ Nat.repr j ∈ keys) := by
  intro fuel
  induction fuel with
  | zero => intro k ⟨j, hj, _⟩; omega
  | succ fuel ih =>
    intro k ⟨j, hj, hfree⟩
    rw [findSuffix]
    by_cases hc : base ++ Nat.repr k ∈ keys
    · simp only [if_pos hc]
      have hex : ∃ j', j' < fuel ∧ base ++ Nat.repr (k + 1 + j') ∉ keys := by
        match j, hj, hfree with
        | 0, _, hfree => exact absurd hc hfree
        | j' + 1, hj, hfree => exact ⟨j', by omega, by rwa [show k + 1 + j' = k + (j' + 1) by omega]⟩
      obtain ⟨h1, h2, h3⟩ := ih (k + 1) hex
      refine ⟨h1, by omega, ?_⟩
      intro i hki hir
      by_cases hik : i = k
      · rwa [hik]
      · exact h3 i (by omega) hir
    · simp only [if_neg hc]
      exact ⟨hc, le_refl k, fun i h1 h2 => by omega⟩

theorem resolveName_not_mem (base : String) (keys : List String) :
    resolveName base keys ∉ keys := by
  rw [resolveName]
  by_cases hb : base ∈ keys
  · simp only [if_pos hb]
    exact (findSuffix_spec base keys (keys.length + 1) 1 (exists_free_suffix base keys)).1
  · simp only [if_neg hb]
    exact hb

theorem resolveName_of_not_mem (base : String) (keys : List String) (h : base ∉ keys) :
    resolveName base keys = base := by
  rw [resolveName, if_neg h]

theorem resolveName_least (base : String) (keys : List String) (h : base ∈ keys) :
    ∃ k, 1 ≤ k ∧ resolveName base keys = base ++ Nat.repr k ∧ base ++ Nat.repr k ∉ keys ∧
      ∀ j, 1 ≤ j → j < k → base ++ Nat.repr j ∈ keys := by
  obtain ⟨h1, h2, h3⟩ := findSuffix_spec base keys (keys.length + 1) 1 (exists_free_suffix base keys)
  refine ⟨findSuffix base keys (keys.length + 1) 1, h2, ?_, ?_, fun j ha hb => h3 j ha hb⟩
  · rw [resolveName, if_pos h]
  · exact h1

/-! Basic lemmas about the association-list and set operations. -/

theorem lookupA_some_mem {κ α : Type} [DecidableEq κ] :
    ∀ (m : List (κ × α)) (k : κ) (v : α), lookupA m k = some v → (k, v) ∈ m := by
  intro m
  induction m with
  | nil => intro k v h; simp [lookupA] at h
  | cons p rest ih =>
    intro k v h
    cases p with
    | mk k0 v0 =>
      rw [lookupA] at h
      by_cases hk : k0 = k
      · rw [if_pos hk] at h
        subst hk
        injection h with h'
        subst h'
        exact List.mem_cons_self _ _
      · rw [if_neg hk] at h
        exact List.mem_cons_of_mem _ (ih k v h)

theorem mem_keysA_iff {κ α : Type} [DecidableEq κ] :
    ∀ (m : List (κ × α)) (k : κ), k ∈ keysA m ↔ (lookupA m k).isSome := by
  intro m
  induction m with
  | nil => intro k; simp [keysA, lookupA]
  | cons p rest ih =>
    intro k
    rw [keysA, List.map_cons, List.mem_cons, lookupA]
    by_cases hk : p.1 = k
    · simp [hk]
    · rw [if_neg hk]
      constructor
      · intro h
        rcases h with h | h
        · exact absurd h.symm hk
        · exact (ih k).mp h
      · intro h
        exact Or.inr ((ih k).mpr h)

theorem lookupA_eq_none_iff {κ α : Type} [DecidableEq κ] (m : List (κ × α)) (k : κ) :
    lookupA m k = none ↔ k ∉ keysA m := by
  rw [mem_keysA_iff]
  cases lookupA m k <;> simp

theorem lookupA_setA_self {κ α : Type} [DecidableEq κ] :
    ∀ (m : List (κ × α)) (k : κ) (v : α), lookupA (setA m k v) k = some v := by
  intro m
  induction m with
  | nil => intro k v; simp [setA, lookupA]
  | cons p rest ih =>
    intro k v
    cases p with
    | mk k' v' =>
      rw [setA]
      by_cases hk : k' = k
      · rw [if_pos hk, lookupA, if_pos rfl]
      · rw [if_neg hk, lookupA, if_neg hk]
        exact ih k v

theorem lookupA_setA_ne {κ α : Type} [DecidableEq κ] :
    ∀ (m : List (κ × α)) (k k' : κ) (v : α), k' ≠ k →
      lookupA (setA m k v) k' = lookupA m k' := by
  intro m
  induction m with
  | nil =>
    intro k k' v h
    show lookupA [(k, v)] k' = lookupA ([] : List (κ × α)) k'
    have h' : ¬ (k = k') := fun hh => h hh.symm
    simp [lookupA, h']
  | cons p rest ih =>
    intro k k' v h
    cases p with
    | mk k0 v0 =>
      rw [setA]
      by_cases hk : k0 = k
      · rw [if_pos hk, lookupA, lookupA]
        have : ¬ k = k' := fun hh => h hh.symm
        rw [if_neg this, if_neg (hk ▸ this)]
      · rw [if_neg hk, lookupA, lookupA]
        by_cases h0 : k0 = k'
        · rw [if_pos h0, if_pos h0]
        · rw [if_neg h0, if_neg h0]
          exact ih k k' v h

theorem removeA_cons_eq {κ α : Type} [DecidableEq κ] (p : κ × α) (rest : List (κ × α))
    (k : κ) (hk : p.1 = k) : removeA (p :: rest) k = removeA rest k := by
  simp [removeA, List.filter_cons, hk]

theorem removeA_cons_ne {κ α : Type} [DecidableEq κ] (p : κ × α) (rest : List (κ × α))
    (k : κ) (hk : ¬ p.1 = k) : removeA (p :: rest) k = p :: removeA rest k := by
  simp [removeA, List.filter_cons, hk]

theorem lookupA_removeA_self {κ α : Type} [DecidableEq κ] (m : List (κ × α)) (k : κ) :
    lookupA (removeA m k) k = none := by
  induction m with
  | nil => simp [removeA, lookupA]
  | cons p rest ih =>
    by_cases hk : p.1 = k
    · rw [removeA_cons_eq p rest k hk]
      exact ih
    · rw [removeA_cons_ne p rest k hk, lookupA, if_neg hk]
      exact ih

theorem lookupA_removeA_ne {κ α : Type} [DecidableEq κ] (m : List (κ × α)) (k k' : κ)
    (h : k' ≠ k) : lookupA (removeA m k) k' = lookupA m k' := by
  induction m with
  | nil => simp [removeA, lookupA]
  | cons p rest ih =>
    by_cases hk : p.1 = k
    · rw [removeA_cons_eq p rest k hk, lookupA]
      rw [if_neg (by rw [hk]; exact fun hh => h hh.symm)]
      exact ih
    · rw [removeA_cons_ne p rest k hk, lookupA, lookupA]
      by_cases h0 : p.1 = k'
      · rw [if_pos h0, if_pos h0]
      · rw [if_neg h0, if_neg h0]
        exact ih

theorem keysA_setA_not_mem {κ α : Type} [DecidableEq κ] :
    ∀ (m : List (κ × α)) (k : κ) (v : α), k ∉ keysA m →
      keysA (setA m k v) = keysA m ++ [k] := by
  intro m
  induction m with
  | nil => intro k v h; simp [setA, keysA]
  | cons p rest ih =>
    intro k v h
    rw [keysA, List.map_cons] at h
    simp only [List.mem_cons, not_or] at h
    cases p with
    | mk k0 v0 =>
      rw [setA, if_neg (fun hh => h.1 hh.symm), keysA, keysA, List.map_cons, List.map_cons]
      rw [List.cons_append]
      congr 1
      exact ih k v h.2

theorem mem_setA {κ α : Type} [DecidableEq κ] :
    ∀ (m : List (κ × α)) (k : κ) (v : α) (p : κ × α),
      p ∈ setA m k v → p = (k, v) ∨ p ∈ m := by
  intro m
  induction m with
  | nil => intro k v p h; simp [setA] at h; exact Or.inl h
  | cons q rest ih =>
    intro k v p h
    cases q with
    | mk k0 v0 =>
      rw [setA] at h
      by_cases hk : k0 = k
      · rw [if_pos hk] at h
        rcases List.mem_cons.mp h with h | h
        · exact Or.inl h
        · exact Or.inr (List.mem_cons_of_mem _ h)
      · rw [if_neg hk] at h
        rcases List.mem_cons.mp h with h | h
        · exact Or.inr (h ▸ List.mem_cons_self _ _)
        · rcases ih k v p h with h | h
          · exact Or.inl h
          · exact Or.inr (List.mem_cons_of_mem _ h)

theorem mem_removeA {κ α : Type} [DecidableEq κ] (m : List (κ × α)) (k : κ) (p : κ × α)
    (h : p ∈ removeA m k) : p ∈ m :=
  List.mem_of_mem_filter h

theorem mem_delS (s : List String) (x y : String) : y ∈ delS s x ↔ y ∈ s ∧ y ≠ x := by
  rw [delS, List.mem_filter]
  simp

theorem mem_addS (s : List String) (x y : String) : y ∈ addS s x ↔ y ∈ s ∨ y = x := by
  rw [addS]
  by_cases h : x ∈ s
  · rw [if_pos h]
    constructor
    · exact Or.inl
    · intro hy
      rcases hy with hy | hy
      · exact hy
      · exact hy ▸ h
  · rw [if_neg h]
    simp

theorem headD_mem {α : Type} (l : List α) (d : α) (h : l ≠ []) : l.headD d ∈ l := by
  cases l with
  | nil => exact absurd rfl h
  | cons a t => simp

theorem keysA_setA_mem {κ α : Type} [DecidableEq κ] :
    ∀ (m : List (κ × α)) (k : κ) (v : α), k ∈ keysA m →
      keysA (setA m k v) = keysA m := by
  intro m
  induction m with
  | nil => intro k v h; simp [keysA] at h
  | cons p rest ih =>
    intro k v h
    cases p with
    | mk k0 v0 =>
      rw [setA]
      by_cases hk : k0 = k
      · rw [if_pos hk]
        show k :: keysA rest = k0 :: keysA rest
        rw [hk]
      · rw [if_neg hk]
        show k0 :: keysA (setA rest k v) = k0 :: keysA rest
        have h' : k ∈ keysA rest := by
          rcases List.mem_cons.mp h with h | h
          · exact absurd h.symm hk
          · exact h
        rw [ih k v h']

theorem keysA_map_update {κ α : Type} (m : List (κ × α)) (f : κ × α → α) :
    keysA (m.map (fun p => (p.1, f p))) = keysA m := by
  induction m with
  | nil => rfl
  | cons p r ih =>
    simp only [List.map_cons, keysA] at ih ⊢
    rw [ih]

/-!
Claim theorems.
-/

/-- C5: for every sequence of `join_room` calls with colliding requested
names on the same room, the assigned player ids are pairwise distinct within
the room (the assigned id is fresh and key-nodup is preserved, so any
sequence of joins yields pairwise distinct ids), and the assignment is
deterministic: the requested name unmodified if free, otherwise the requested
name with the smallest positive integer suffix not already a key of
`players`. -/
theorem join_room_unique_deterministic
    (rooms : Rooms) (c : Nat) (sess : Session) (room_code pname color : String) (rnd : Nat)
    (room : Room)
    (hr : lookupA rooms (toUpperStr room_code) = some room)
    (hstart : room.started = false)
    (hfull : (keysA room.players).length < 10)
    (hnd : (keysA room.players).Nodup)
    (hpn : pname ≠ "") :
    ∃ room',
      (handleJoinRoom rooms c sess room_code pname color rnd).1 =
        setA rooms (toUpperStr room_code) room' ∧
      (handleJoinRoom rooms c sess room_code pname color rnd).2.1 =
        ⟨some (toUpperStr room_code), some (resolveName pname (keysA room.players))⟩ ∧
      resolveName pname (keysA room.players) ∉ keysA room.players ∧
      keysA room'.players =
        keysA room.players ++ [resolveName pname (keysA room.players)] ∧
      (keysA room'.players).Nodup ∧
      (pname ∉ keysA room.players → resolveName pname (keysA room.players) = pname) ∧
      (pname ∈ keysA room.players →
        ∃ k, 1 ≤ k ∧ resolveName pname (keysA room.players) = pname ++ Nat.repr k ∧
          pname ++ Nat.repr k ∉ keysA room.players ∧
          ∀ j, 1 ≤ j → j < k → pname ++ Nat.repr j ∈ keysA room.players) := by
  have hnotfull : ¬ 10 ≤ (keysA room.players).length := by omega
  have hfree := resolveName_not_mem pname (keysA room.players)
  refine ⟨Room.mk room.host
      (setA room.players (resolveName pname (keysA room.players))
        ⟨c, resolveName pname (keysA room.players), false, true, spawnPos,
          if color = "" then "#ff6b6b" else color⟩)
      room.started room.current_level room.level_wins room.ready_players
      room.finished_players room.death_placeholders,
    ?_, ?_, hfree, ?_, ?_, ?_, ?_⟩
  · simp [handleJoinRoom, hr, hstart, hpn, hnotfull]
  · simp [handleJoinRoom, hr, hstart, hpn, hnotfull]
  · exact keysA_setA_not_mem room.players _ _ hfree
  · rw [show keysA (Room.mk room.host
        (setA room.players (resolveName pname (keysA room.players))
          ⟨c, resolveName pname (keysA room.players), false, true, spawnPos,
            if color = "" then "#ff6b6b" else color⟩)
        room.started room.current_level room.level_wins room.ready_players
        room.finished_players room.death_placeholders).players =
      keysA room.players ++ [resolveName pname (keysA room.players)] from
        keysA_setA_not_mem room.players _ _ hfree]
    simp [List.nodup_append, hnd, hfree]
  · exact resolveName_of_not_mem pname (keysA room.players)
  · exact resolveName_least pname (keysA room.players)

/-- C5 witness: joining room `AAAA` (requested via lowercase code) with the
already-taken name `A` assigns `A1`, extends the key list to `[A, A1]`, and
keeps the ids pairwise distinct. -/
theorem join_room_unique_deterministic_witness :
    ∃ room',
      (handleJoinRoom roomsAB 2 ⟨none, none⟩ "aaaa" "A" "" 7).1 =
        setA roomsAB (toUpperStr "aaaa") room' ∧
      (handleJoinRoom roomsAB 2 ⟨none, none⟩ "aaaa" "A" "" 7).2.1 =
        ⟨some (toUpperStr "aaaa"), some (resolveName "A" (keysA roomAB.players))⟩ ∧
      resolveName "A" (keysA roomAB.players) ∉ keysA roomAB.players ∧
      keysA room'.players =
        keysA roomAB.players ++ [resolveName "A" (keysA roomAB.players)] ∧
      (keysA room'.players).Nodup ∧
      ("A" ∉ keysA roomAB.players → resolveName "A" (keysA roomAB.players) = "A") ∧
      ("A" ∈ keysA roomAB.players →
        ∃ k, 1 ≤ k ∧ resolveName "A" (keysA roomAB.players) = "A" ++ Nat.repr k ∧
          "A" ++ Nat.repr k ∉ keysA roomAB.players ∧
          ∀ j, 1 ≤ j → j < k → "A" ++ Nat.repr j ∈ keysA roomAB.players) :=
  join_room_unique_deterministic roomsAB 2 ⟨none, none⟩ "aaaa" "A" "" 7 roomAB
    (by decide) (by decide) (by decide) (by decide) (by decide)

/-- C1: `start_game` succeeds — sets `started = true`, `currentLevel = 1`,
and issues one `game_start` message per player — if and only if the sender is
the room's host and the ready count equals the player count; a host request
with fewer ready players yields exactly one `NotAllReady` error reply to the
requester and changes nothing; a non-host request is a silent no-op. -/
theorem start_game_iff
    (rooms : Rooms) (c : Nat) (sess : Session) (rc : String) (room : Room) (pid : String)
    (hrc : sess.playerRoomCode = some rc)
    (hpid : sess.playerId = some pid)
    (hr : lookupA rooms rc = some room)
    (hsub : room.ready_players ⊆ keysA room.players)
    (hndr : room.ready_players.Nodup) :
    (pid = room.host ∧ room.ready_players.length = (keysA room.players).length →
      ∃ room', handleStartGame rooms c sess = (setA rooms rc room',
          room'.players.map (fun p => (p.2.ws, Out.game_start 1
            (room'.players.map (fun q => (q.1, StartEntry.mk q.2.name q.2.color))) p.1))) ∧
        room'.started = true ∧ room'.current_level = 1 ∧
        keysA room'.players = keysA room.players) ∧
    (pid = room.host ∧ room.ready_players.length ≠ (keysA room.players).length →
      handleStartGame rooms c sess = (rooms, [(c, Out.error "Not all players are ready")])) ∧
    (pid ≠ room.host → handleStartGame rooms c sess = (rooms, [])) := by
  have hle : room.ready_players.length ≤ (keysA room.players).length :=
    (hndr.subperm hsub).length_le
  refine ⟨?_, ?_, ?_⟩
  · rintro ⟨hhost, hcnt⟩
    have hnotlt : ¬ room.ready_players.length < (keysA room.players).length := by omega
    refine ⟨Room.mk room.host
        (room.players.map (fun p => (p.1, { p.2 with alive := true })))
        true 1
        ((keysA room.players).foldl (fun lw id => match lookupA lw id with
          | some v => if v = 0 then setA lw id 0 else lw
          | none => setA lw id 0) room.level_wins)
        room.ready_players [] [],
      ?_, rfl, rfl, ?_⟩
    · simp [handleStartGame, hrc, hr, hpid, hhost, hnotlt]
    · exact keysA_map_update room.players _
  · rintro ⟨hhost, hcnt⟩
    have hlt : room.ready_players.length < (keysA room.players).length := by omega
    simp [handleStartGame, hrc, hr, hpid, hhost, hlt]
  · intro hne
    simp [handleStartGame, hrc, hr, hpid, hne]

/-- C1 witness: in room `AAAA` with players `A` (host, ready) and `B`
(ready), host `A` starting the game succeeds, and the other two branches of
the specification hold vacuously at this input. -/
theorem start_game_iff_witness :
    ("A" = roomAB.host ∧ roomAB.ready_players.length = (keysA roomAB.players).length →
      ∃ room', handleStartGame roomsAB 0 ⟨some "AAAA", some "A"⟩ = (setA roomsAB "AAAA" room',
          room'.players.map (fun p => (p.2.ws, Out.game_start 1
            (room'.players.map (fun q => (q.1, StartEntry.mk q.2.name q.2.color))) p.1))) ∧
        room'.started = true ∧ room'.current_level = 1 ∧
        keysA room'.players = keysA roomAB.players) ∧
    ("A" = roomAB.host ∧ roomAB.ready_players.length ≠ (keysA roomAB.players).length →
      handleStartGame roomsAB 0 ⟨some "AAAA", some "A"⟩ =
        (roomsAB, [(0, Out.error "Not all players are ready")])) ∧
    ("A" ≠ roomAB.host → handleStartGame roomsAB 0 ⟨some "AAAA", some "A"⟩ = (roomsAB, [])) :=
  start_game_iff roomsAB 0 ⟨some "AAAA", some "A"⟩ "AAAA" roomAB "A"
    rfl rfl (by decide) (by decide) (by decide)

/-- C4: `revive_player(target)` is a silent no-op (no state change, no
message) unless the target currently has a death placeholder; on success the
placeholder is removed, the target is marked alive, and every player entry in
the room is issued exactly one `player_revived` message carrying the revived
id, the reviver id, and the position recorded at death time. -/
theorem revive_player_correct
    (rooms : Rooms) (sess : Session) (rc : String) (room : Room) (tid : String)
    (hrc : sess.playerRoomCode = some rc)
    (hr : lookupA rooms rc = some room) :
    (lookupA room.death_placeholders tid = none →
      handleRevivePlayer rooms sess tid = .ok (rooms, [])) ∧
    (∀ pos pl, lookupA room.death_placeholders tid = some pos →
      lookupA room.players tid = some pl →
      ∃ room', handleRevivePlayer rooms sess tid = .ok (setA rooms rc room',
          room'.players.map (fun p => (p.2.ws,
            Out.player_revived tid (sess.playerId.getD "null") pos.x pos.y))) ∧
        lookupA room'.players tid = some { pl with alive := true } ∧
        lookupA room'.death_placeholders tid = none ∧
        keysA room'.players = keysA room.players) := by
  constructor
  · intro h
    simp [handleRevivePlayer, hrc, hr, h]
  · intro pos pl hdp hpl
    refine ⟨Room.mk room.host (setA room.players tid { pl with alive := true })
        room.started room.current_level room.level_wins room.ready_players
        room.finished_players (removeA room.death_placeholders tid),
      ?_, ?_, ?_, ?_⟩
    · simp [handleRevivePlayer, hrc, hr, hdp, hpl]
    · exact lookupA_setA_self room.players tid _
    · exact lookupA_removeA_self room.death_placeholders tid
    · exact keysA_setA_mem room.players tid _ ((mem_keysA_iff room.players tid).mpr
        (by rw [hpl]; rfl))

/-- C4 witness: in room `AAAA` where `B` died at `(5, 6)`, a revive of `B` by
`A` removes the placeholder, marks `B` alive, and issues one notification per
player; reviving a target with no placeholder is a no-op. -/
theorem revive_player_correct_witness :
    (lookupA roomDead.death_placeholders "B" = none →
      handleRevivePlayer roomsDead ⟨some "AAAA", some "A"⟩ "B" = .ok (roomsDead, [])) ∧
    (∀ pos pl, lookupA roomDead.death_placeholders "B" = some pos →
      lookupA roomDead.players "B" = some pl →
      ∃ room', handleRevivePlayer roomsDead ⟨some "AAAA", some "A"⟩ "B" =
          .ok (setA roomsDead "AAAA" room',
            room'.players.map (fun p => (p.2.ws,
              Out.player_revived "B" ((some "A").getD "null") pos.x pos.y))) ∧
        lookupA room'.players "B" = some { pl with alive := true } ∧
        lookupA room'.death_placeholders "B" = none ∧
        keysA room'.players = keysA roomDead.players) :=
  revive_player_correct roomsDead ⟨some "AAAA", some "A"⟩ "AAAA" roomDead "B" rfl (by decide)

/-- C2 (amended): a `player_finished` call increments the sender's
`levelWins` entry by one — and schedules the 3-second advance timer — exactly
when the finished set has size 1 after the sender is added: this holds for
the first finisher of the level, but equally for a repeated `player_finished`
by the sole finisher, or for a fresh finisher after disconnects emptied the
set; calls after which the set has size other than 1 increment no entry. -/
theorem player_finished_wins
    (rooms : Rooms) (sess : Session) (rc : String) (room : Room) (pid : String)
    (hrc : sess.playerRoomCode = some rc)
    (hpid : sess.playerId = some pid)
    (hr : lookupA rooms rc = some room) :
    ((addS room.finished_players pid).length = 1 →
      ∃ room', (handlePlayerFinished rooms sess).1 = setA rooms rc room' ∧
        lookupA room'.level_wins pid = some ((lookupA room.level_wins pid).getD 0 + 1) ∧
        (∀ q, q ≠ pid → lookupA room'.level_wins q = lookupA room.level_wins q) ∧
        (handlePlayerFinished rooms sess).2.2 = true) ∧
    ((addS room.finished_players pid).length ≠ 1 →
      ∃ room', (handlePlayerFinished rooms sess).1 = setA rooms rc room' ∧
        room'.level_wins = room.level_wins ∧
        (handlePlayerFinished rooms sess).2.2 = false) := by
  constructor
  · intro hone
    refine ⟨Room.mk room.host room.players room.started room.current_level
        (setA room.level_wins pid ((lookupA room.level_wins pid).getD 0 + 1))
        room.ready_players (addS room.finished_players pid) room.death_placeholders,
      ?_, ?_, ?_, ?_⟩
    · simp [handlePlayerFinished, hrc, hpid, hr, hone]
    · exact lookupA_setA_self room.level_wins pid _
    · intro q hq
      exact lookupA_setA_ne room.level_wins pid q _ hq
    · simp [handlePlayerFinished, hrc, hpid, hr, hone]
  · intro hone
    refine ⟨Room.mk room.host room.players room.started room.current_level
        room.level_wins room.ready_players (addS room.finished_players pid)
        room.death_placeholders,
      ?_, rfl, ?_⟩
    · simp [handlePlayerFinished, hrc, hpid, hr, hone]
    · simp [handlePlayerFinished, hrc, hpid, hr, hone]

/-- C2 witness: in room `AAAA` at level 3 with no finisher yet, `A` finishing
becomes the sole finisher, so `A` is credited one win (from 1 to 2) and the
advance timer is scheduled; the second branch holds vacuously here. -/
theorem player_finished_wins_witness :
    ((addS roomDead.finished_players "A").length = 1 →
      ∃ room', (handlePlayerFinished roomsDead ⟨some "AAAA", some "A"⟩).1 =
          setA roomsDead "AAAA" room' ∧
        lookupA room'.level_wins "A" = some ((lookupA roomDead.level_wins "A").getD 0 + 1) ∧
        (∀ q, q ≠ "A" → lookupA room'.level_wins q = lookupA roomDead.level_wins q) ∧
        (handlePlayerFinished roomsDead ⟨some "AAAA", some "A"⟩).2.2 = true) ∧
    ((addS roomDead.finished_players "A").length ≠ 1 →
      ∃ room', (handlePlayerFinished roomsDead ⟨some "AAAA", some "A"⟩).1 =
          setA roomsDead "AAAA" room' ∧
        room'.level_wins = roomDead.level_wins ∧
        (handlePlayerFinished roomsDead ⟨some "AAAA", some "A"⟩).2.2 = false) :=
  player_finished_wins roomsDead ⟨some "AAAA", some "A"⟩ "AAAA" roomDead "A"
    rfl rfl (by decide)

/-- C2 counterexample: the sole player `A` sends `player_finished` twice in
the same level (level 1, never advanced).  The first call makes
`finishedIds.size` become 1 and increments `A`'s `levelWins`; the second call
leaves the size at 1, so by the claim it must increment nothing — yet `A`'s
win count ends at 2, refuting "every subsequent player_finished call in the
same level increments no levelWins entry". -/
theorem player_finished_double_increment_cex :
    (runEvents initState c2trace).toOption.bind (fun s => (lookupA s.rooms "AAAA").map
      (fun r => (lookupA r.level_wins "A", r.current_level, r.finished_players))) =
      some (some 2, 1, ["A"]) := by
  decide

/-- C6: on disconnect of a room member: if the departing player was the sole
remaining player the room is removed from the registry (no message is sent);
otherwise, if the departing player was the host, the host field is reassigned
to the first remaining player in insertion order and each remaining player
entry is issued exactly one `new_host` message carrying the new host id, on
top of the `player_left` broadcast each receives; a departing non-host leaves
the host unchanged, with only the `player_left` broadcast. -/
theorem disconnect_host_failover
    (rooms : Rooms) (sess : Session) (rc : String) (room : Room) (pid : String)
    (hrc : sess.playerRoomCode = some rc)
    (hpid : sess.playerId = some pid)
    (hr : lookupA rooms rc = some room)
    (hmem : pid ∈ keysA room.players) :
    (removeA room.players pid = [] →
      handleClose rooms sess = (removeA rooms rc, []) ∧
      lookupA (removeA rooms rc) rc = none) ∧
    (removeA room.players pid ≠ [] → room.host = pid →
      ∃ room', handleClose rooms sess = (setA rooms rc room',
          (removeA room.players pid).map (fun p => (p.2.ws, Out.player_left pid)) ++
          (removeA room.players pid).map (fun p => (p.2.ws, Out.new_host room'.host))) ∧
        room'.players = removeA room.players pid ∧
        room'.host = (keysA (removeA room.players pid)).headD "" ∧
        room'.host ∈ keysA room'.players) ∧
    (removeA room.players pid ≠ [] → room.host ≠ pid →
      ∃ room', handleClose rooms sess = (setA rooms rc room',
          (removeA room.players pid).map (fun p => (p.2.ws, Out.player_left pid))) ∧
        room'.players = removeA room.players pid ∧ room'.host = room.host) := by
  refine ⟨?_, ?_, ?_⟩
  · intro hsole
    constructor
    · simp [handleClose, hrc, hpid, hr, hsole, keysA]
    · exact lookupA_removeA_self rooms rc
  · intro hne hhost
    have hlen : ¬ ((keysA (removeA room.players pid)).length = 0) := by
      rw [show (keysA (removeA room.players pid)).length = (removeA room.players pid).length
        from List.length_map _ _]
      intro h0
      exact hne (List.length_eq_zero.mp h0)
    have hkne : keysA (removeA room.players pid) ≠ [] := by
      intro h0
      rw [h0] at hlen
      exact hlen rfl
    refine ⟨Room.mk ((keysA (removeA room.players pid)).headD "")
        (removeA room.players pid) room.started room.current_level room.level_wins
        (delS room.ready_players pid) (delS room.finished_players pid)
        (removeA room.death_placeholders pid),
      ?_, rfl, rfl, ?_⟩
    · simp [handleClose, hrc, hpid, hr, hlen, hhost]
    · exact headD_mem _ _ hkne
  · intro hne hhost
    have hlen : ¬ ((keysA (removeA room.players pid)).length = 0) := by
      rw [show (keysA (removeA room.players pid)).length = (removeA room.players pid).length
        from List.length_map _ _]
      intro h0
      exact hne (List.length_eq_zero.mp h0)
    refine ⟨Room.mk room.host
        (removeA room.players pid) room.started room.current_level room.level_wins
        (delS room.ready_players pid) (delS room.finished_players pid)
        (removeA room.death_placeholders pid),
      ?_, rfl, rfl⟩
    simp [handleClose, hrc, hpid, hr, hlen, hhost]

/-- C6 witness: host `A` disconnecting from room `AAAA` while `B` remains
promotes `B` (the first remaining player) and issues exactly one `new_host`
per remaining player entry; the sole-player and non-host branches hold
vacuously at this input. -/
theorem disconnect_host_failover_witness :
    (removeA roomAB.players "A" = [] →
      handleClose roomsAB ⟨some "AAAA", some "A"⟩ = (removeA roomsAB "AAAA", []) ∧
      lookupA (removeA roomsAB "AAAA") "AAAA" = none) ∧
    (removeA roomAB.players "A" ≠ [] → roomAB.host = "A" →
      ∃ room', handleClose roomsAB ⟨some "AAAA", some "A"⟩ = (setA roomsAB "AAAA" room',
          (removeA roomAB.players "A").map (fun p => (p.2.ws, Out.player_left "A")) ++
          (removeA roomAB.players "A").map (fun p => (p.2.ws, Out.new_host room'.host))) ∧
        room'.players = removeA roomAB.players "A" ∧
        room'.host = (keysA (removeA roomAB.players "A")).headD "" ∧
        room'.host ∈ keysA room'.players) ∧
    (removeA roomAB.players "A" ≠ [] → roomAB.host ≠ "A" →
      ∃ room', handleClose roomsAB ⟨some "AAAA", some "A"⟩ = (setA roomsAB "AAAA" room',
          (removeA roomAB.players "A").map (fun p => (p.2.ws, Out.player_left "A"))) ∧
        room'.players = removeA roomAB.players "A" ∧ room'.host = roomAB.host) :=
  disconnect_host_failover roomsAB ⟨some "AAAA", some "A"⟩ "AAAA" roomAB "A"
    rfl rfl (by decide) (by decide)

/-- C7 (amended): each post-join operation (`player_ready`, `player_died`,
`player_position`, `revive_player`, `player_finished`, `lobby_position`) is a
silent no-op — nothing thrown, no state change, no message — whenever the
sender's session has no bound room code or the bound code names no existing
room.  (When the bound room exists but the bound player id is no longer a
member — possible after a failed `join_room` rebinds the id — `player_ready`
and `player_died` instead throw, and the remaining operations can act on
behalf of the non-member: see the counterexample.) -/
theorem unknown_room_silent_noop
    (rooms : Rooms) (c : Nat) (sess : Session)
    (h : ∀ rc, sess.playerRoomCode = some rc → lookupA rooms rc = none) :
    (∀ rdy, handlePlayerReady rooms sess rdy = .ok (rooms, [])) ∧
    (∀ x y, handlePlayerDied rooms c sess x y = .ok (rooms, [])) ∧
    (∀ x y, handlePlayerPosition rooms c sess x y = []) ∧
    (∀ tid, handleRevivePlayer rooms sess tid = .ok (rooms, [])) ∧
    (handlePlayerFinished rooms sess = (rooms, [], false)) ∧
    (∀ x y, handleLobbyPosition rooms c sess x y = []) := by
  cases hsc : sess.playerRoomCode with
  | none =>
    refine ⟨?_, ?_, ?_, ?_, ?_, ?_⟩ <;> intros <;>
      simp [handlePlayerReady, handlePlayerDied, handlePlayerPosition,
        handleRevivePlayer, handlePlayerFinished, handleLobbyPosition, hsc]
  | some rc =>
    have hn := h rc hsc
    refine ⟨?_, ?_, ?_, ?_, ?_, ?_⟩ <;> intros <;>
      simp [handlePlayerReady, handlePlayerDied, handlePlayerPosition,
        handleRevivePlayer, handlePlayerFinished, handleLobbyPosition, hsc, hn]

/-- C7 witness: a fresh session bound to no room: every post-join operation
is a silent no-op on a one-room registry. -/
theorem unknown_room_silent_noop_witness :
    (∀ rdy, handlePlayerReady roomsAB ⟨none, none⟩ rdy = .ok (roomsAB, [])) ∧
    (∀ x y, handlePlayerDied roomsAB 5 ⟨none, none⟩ x y = .ok (roomsAB, [])) ∧
    (∀ x y, handlePlayerPosition roomsAB 5 ⟨none, none⟩ x y = []) ∧
    (∀ tid, handleRevivePlayer roomsAB ⟨none, none⟩ tid = .ok (roomsAB, [])) ∧
    (handlePlayerFinished roomsAB ⟨none, none⟩ = (roomsAB, [], false)) ∧
    (∀ x y, handleLobbyPosition roomsAB 5 ⟨none, none⟩ x y = []) :=
  unknown_room_silent_noop roomsAB 5 ⟨none, none⟩ (fun rc h => by cases h)

/-- C7 counterexample: connection 0 creates room `AAAA` as `A`, then fails a
`join_room` for the unknown room `ZZZZ` — which rebinds the session's player
id to `B` while leaving the bound room `AAAA`.  The following `player_ready`
has a sender that is not an existing player of the (known) room `AAAA`; the
claim says it must complete as a silent no-op that never throws, but the run
ends in a thrown `TypeError` (`room.players[playerId]` is `undefined`). -/
theorem stale_player_ready_throws_cex :
    runEvents initState c7trace = .error () := rfl

/-- C8 (amended): each of the four explicit error replies leaves the room
registry unchanged — no room created, modified or deleted, hence no player
added or removed — and the `NotAllReady` error also leaves the requester's
session binding untouched; the three `join_room` error replies preserve the
bound room code but, before failing, reassign the session's bound player id
to the requested name (refuting the original claim that the session binding
is unchanged by the error). -/
theorem error_replies_preserve_rooms
    (rooms : Rooms) (c : Nat) (sess : Session) :
    (∀ room_code pname color rnd, pname ≠ "" →
      (lookupA rooms (toUpperStr room_code) = none →
        handleJoinRoom rooms c sess room_code pname color rnd =
          (rooms, ⟨sess.playerRoomCode, some pname⟩, [(c, Out.error "Room not found")])) ∧
      (∀ room, lookupA rooms (toUpperStr room_code) = some room → room.started = true →
        handleJoinRoom rooms c sess room_code pname color rnd =
          (rooms, ⟨sess.playerRoomCode, some pname⟩,
            [(c, Out.error "Game already started")])) ∧
      (∀ room, lookupA rooms (toUpperStr room_code) = some room → room.started = false →
        10 ≤ (keysA room.players).length →
        handleJoinRoom rooms c sess room_code pname color rnd =
          (rooms, ⟨sess.playerRoomCode, some pname⟩, [(c, Out.error "Room is full")]))) ∧
    (∀ rc room pid, sess.playerRoomCode = some rc → sess.playerId = some pid →
      lookupA rooms rc = some room → pid = room.host →
      room.ready_players.length < (keysA room.players).length →
      handleStartGame rooms c sess = (rooms, [(c, Out.error "Not all players are ready")])) := by
  constructor
  · intro room_code pname color rnd hpn
    refine ⟨?_, ?_, ?_⟩
    · intro hl
      simp [handleJoinRoom, hl, hpn]
    · intro room hl hs
      simp [handleJoinRoom, hl, hs, hpn]
    · intro room hl hs hf
      simp [handleJoinRoom, hl, hs, hf, hpn]
  · intro rc room pid hrc hpid hr hhost hlt
    simp [handleStartGame, hrc, hpid, hr, hhost, hlt]

/-- C8 witness: a session previously bound to room `AAAA` as `A` issues the
four failing requests against a concrete registry; the registry is unchanged
in each case. -/
theorem error_replies_preserve_rooms_witness :
    (∀ room_code pname color rnd, pname ≠ "" →
      (lookupA roomsDead (toUpperStr room_code) = none →
        handleJoinRoom roomsDead 3 ⟨some "AAAA", some "A"⟩ room_code pname color rnd =
          (roomsDead, ⟨some "AAAA", some pname⟩, [(3, Out.error "Room not found")])) ∧
      (∀ room, lookupA roomsDead (toUpperStr room_code) = some room → room.started = true →
        handleJoinRoom roomsDead 3 ⟨some "AAAA", some "A"⟩ room_code pname color rnd =
          (roomsDead, ⟨some "AAAA", some pname⟩,
            [(3, Out.error "Game already started")])) ∧
      (∀ room, lookupA roomsDead (toUpperStr room_code) = some room → room.started = false →
        10 ≤ (keysA room.players).length →
        handleJoinRoom roomsDead 3 ⟨some "AAAA", some "A"⟩ room_code pname color rnd =
          (roomsDead, ⟨some "AAAA", some pname⟩, [(3, Out.error "Room is full")]))) ∧
    (∀ rc room pid, (some "AAAA" : Option String) = some rc →
      (some "A" : Option String) = some pid →
      lookupA roomsDead rc = some room → pid = room.host →
      room.ready_players.length < (keysA room.players).length →
      handleStartGame roomsDead 3 ⟨some "AAAA", some "A"⟩ =
        (roomsDead, [(3, Out.error "Not all players are ready")])) :=
  error_replies_preserve_rooms roomsDead 3 ⟨some "AAAA", some "A"⟩

/-- C8 counterexample: before the failing `join_room` the session binding of
connection 0 is `(room AAAA, player A)`; after the request fails with the
`room not found` error reply, the bound player id has changed to `B` — the
session binding is not the same after the error as before, refuting the
claim. -/
theorem join_error_rebinds_session_cex :
    (runEvents initState c8pre).toOption.map (fun s => lookupA s.sessions 0) =
      some (some ⟨some "AAAA", some "A"⟩) ∧
    (runEvents initState c8trace).toOption.map (fun s => lookupA s.sessions 0) =
      some (some ⟨some "AAAA", some "B"⟩) :=
  ⟨rfl, rfl⟩

/-- C9 (amended): the close handler removes exactly the player entry the
session is currently bound to: the bound player id is removed from the bound
room (and the room itself is deleted when this leaves it empty), while every
other room is left untouched — in particular an entry orphaned by a later
`create_room`/`join_room` from the same connection survives the disconnect,
refuting "the entry exists exactly as long as the underlying connection is
open and the room exists". -/
theorem close_removes_only_bound_entry
    (rooms : Rooms) (sess : Session) (rc : String) (room : Room) (pid : String)
    (hrc : sess.playerRoomCode = some rc)
    (hpid : sess.playerId = some pid)
    (hr : lookupA rooms rc = some room) :
    (∀ rc', rc' ≠ rc → lookupA (handleClose rooms sess).1 rc' = lookupA rooms rc') ∧
    (∀ room', lookupA (handleClose rooms sess).1 rc = some room' →
      lookupA room'.players pid = none) := by
  have hshape : (handleClose rooms sess).1 = removeA rooms rc ∨
      ∃ room', (handleClose rooms sess).1 = setA rooms rc room' ∧
        room'.players = removeA room.players pid := by
    by_cases h0 : (keysA (removeA room.players pid)).length = 0
    · left
      simp [handleClose, hrc, hpid, hr, h0]
    · by_cases h1 : room.host = pid
      · right
        refine ⟨Room.mk ((keysA (removeA room.players pid)).headD "")
            (removeA room.players pid) room.started room.current_level room.level_wins
            (delS room.ready_players pid) (delS room.finished_players pid)
            (removeA room.death_placeholders pid), ?_, rfl⟩
        simp [handleClose, hrc, hpid, hr, h0, h1]
      · right
        refine ⟨Room.mk room.host
            (removeA room.players pid) room.started room.current_level room.level_wins
            (delS room.ready_players pid) (delS room.finished_players pid)
            (removeA room.death_placeholders pid), ?_, rfl⟩
        simp [handleClose, hrc, hpid, hr, h0, h1]
  rcases hshape with hdel | ⟨room', hset, hpl⟩
  · constructor
    · intro rc' hne
      rw [hdel]
      exact lookupA_removeA_ne rooms rc rc' hne
    · intro room' hlook
      rw [hdel, lookupA_removeA_self] at hlook
      cases hlook
  · constructor
    · intro rc' hne
      rw [hset]
      exact lookupA_setA_ne rooms rc rc' room' hne
    · intro room'' hlook
      rw [hset, lookupA_setA_self] at hlook
      injection hlook with hlook
      rw [← hlook, hpl]
      exact lookupA_removeA_self room.players pid

/-- C9 witness: connection 0 owns the orphaned entry `A` in room `AAAA` but
is bound to room `BBBB` as `B`; closing it removes `B` from `BBBB` and leaves
room `AAAA` — orphan included — untouched. -/
theorem close_removes_only_bound_entry_witness :
    (∀ rc', rc' ≠ "BBBB" →
      lookupA (handleClose roomsOrphan ⟨some "BBBB", some "B"⟩).1 rc' =
        lookupA roomsOrphan rc') ∧
    (∀ room', lookupA (handleClose roomsOrphan ⟨some "BBBB", some "B"⟩).1 "BBBB" =
        some room' → lookupA room'.players "B" = none) :=
  close_removes_only_bound_entry roomsOrphan ⟨some "BBBB", some "B"⟩ "BBBB" roomB0 "B"
    rfl rfl (by decide)

/-- C9 counterexample: connection 0 creates room `AAAA` as `A`, then — while
still a member of `AAAA` — creates room `BBBB`, rebinding its session.  On
disconnect only the bound entry is removed (`BBBB` empties and is deleted),
yet room `AAAA` still holds the entry `A` owned by the now-closed connection
0, refuting "the entry … is deleted from players when that connection
disconnects" for sessions that re-created while already a member. -/
theorem orphaned_entry_survives_cex :
    (runEvents initState c9trace).toOption.map (fun s =>
      ((lookupA s.rooms "AAAA").bind (fun r => (lookupA r.players "A").map Player.ws),
        lookupA s.rooms "BBBB", s.closed)) = some (some 0, none, [0]) := by
  decide

theorem keysA_subset_setA {κ α : Type} [DecidableEq κ] (m : List (κ × α)) (k : κ) (v : α) :
    keysA m ⊆ keysA (setA m k v) := by
  by_cases h : k ∈ keysA m
  · rw [keysA_setA_mem m k v h]
    exact List.Subset.refl _
  · rw [keysA_setA_not_mem m k v h]
    exact List.subset_append_left _ _

theorem keysA_subset_lwInit : ∀ (ids : List String) (lw : List (String × Nat)),
    keysA lw ⊆ keysA (ids.foldl (fun lw id => match lookupA lw id with
      | some v => if v = 0 then setA lw id 0 else lw
      | none => setA lw id 0) lw) := by
  intro ids
  induction ids with
  | nil => intro lw; exact List.Subset.refl _
  | cons i rest ih =>
    intro lw
    rw [List.foldl_cons]
    refine List.Subset.trans ?_ (ih _)
    cases h : lookupA lw i with
    | none =>
      simp only [h]
      exact keysA_subset_setA lw i 0
    | some v =>
      simp only [h]
      by_cases hv : v = 0
      · rw [if_pos hv]
        exact keysA_subset_setA lw i 0
      · rw [if_neg hv]
        exact List.Subset.refl _

theorem handleCreateRoom_shape (rooms : Rooms) (c : Nat) (sess : Session)
    (code pname color : String) :
    RoomsShape rooms (handleCreateRoom rooms c sess code pname color).1 := by
  by_cases h : code.length = 4 ∧ lookupA rooms code = none
  · right; left
    refine ⟨code, Room.mk (if pname = "" then "Player1" else pname)
        [((if pname = "" then "Player1" else pname),
          ⟨c, (if pname = "" then "Player1" else pname), false, true, spawnPos,
            if color = "" then "#4dff7c" else color⟩)]
        false 1 [] [] [] [],
      h.2, ?_, rfl, rfl, rfl⟩
    simp [handleCreateRoom, h]
  · left
    simp [handleCreateRoom, h]

theorem handleJoinRoom_shape (rooms : Rooms) (c : Nat) (sess : Session)
    (room_code pname color : String) (rnd : Nat) :
    RoomsShape rooms (handleJoinRoom rooms c sess room_code pname color rnd).1 := by
  cases hl : lookupA rooms (toUpperStr room_code) with
  | none =>
    left
    simp [handleJoinRoom, hl]
  | some room =>
    by_cases hs : room.started
    · left
      simp [handleJoinRoom, hl, hs]
    · by_cases hf : 10 ≤ (keysA room.players).length
      · left
        simp [handleJoinRoom, hl, hs, hf]
      · right; right; left
        refine ⟨toUpperStr room_code, room, Room.mk room.host
            (setA room.players
              (resolveName (if pname = "" then "Player" ++ Nat.repr rnd else pname)
                (keysA room.players))
              ⟨c, resolveName (if pname = "" then "Player" ++ Nat.repr rnd else pname)
                  (keysA room.players),
                false, true, spawnPos, if color = "" then "#ff6b6b" else color⟩)
            room.started room.current_level room.level_wins room.ready_players
            room.finished_players room.death_placeholders,
          hl, ?_, List.Subset.refl _, Or.inl ⟨rfl, rfl⟩⟩
        simp [handleJoinRoom, hl, hs, hf]

theorem handlePlayerReady_shape (rooms : Rooms) (sess : Session) (rdy : Bool) :
    ShapeE rooms (handlePlayerReady rooms sess rdy) := by
  cases hsc : sess.playerRoomCode with
  | none => simp [handlePlayerReady, hsc, ShapeE, RoomsShape]
  | some rc =>
    cases hl : lookupA rooms rc with
    | none => simp [handlePlayerReady, hsc, hl, ShapeE, RoomsShape]
    | some room =>
      cases hpl : lookupA room.players (sess.playerId.getD "null") with
      | none => simp [handlePlayerReady, hsc, hl, hpl, ShapeE]
      | some pl =>
        have heq : handlePlayerReady rooms sess rdy = .ok (setA rooms rc
            (Room.mk room.host
              (setA room.players (sess.playerId.getD "null") { pl with ready := rdy })
              room.started room.current_level room.level_wins
              (if rdy then addS room.ready_players (sess.playerId.getD "null")
                else delS room.ready_players (sess.playerId.getD "null"))
              room.finished_players room.death_placeholders),
            (setA room.players (sess.playerId.getD "null") { pl with ready := rdy }).map
              (fun p => (p.2.ws, Out.player_ready_update (sess.playerId.getD "null") rdy
                (if rdy then addS room.ready_players (sess.playerId.getD "null")
                  else delS room.ready_players (sess.playerId.getD "null")).length
                (keysA (setA room.players (sess.playerId.getD "null")
                  { pl with ready := rdy })).length))) := by
          simp [handlePlayerReady, hsc, hl, hpl]
        rw [heq]
        show RoomsShape rooms (setA rooms rc _, _).1
        right; right; left
        exact ⟨rc, room, _, hl, rfl, List.Subset.refl _, Or.inl ⟨rfl, rfl⟩⟩

theorem handleStartGame_shape (rooms : Rooms) (c : Nat) (sess : Session) :
    RoomsShape rooms (handleStartGame rooms c sess).1 := by
  cases hsc : sess.playerRoomCode with
  | none => left; simp [handleStartGame, hsc]
  | some rc =>
    cases hl : lookupA rooms rc with
    | none => left; simp [handleStartGame, hsc, hl]
    | some room =>
      by_cases hh : sess.playerId.getD "null" ≠ room.host
      · left
        simp [handleStartGame, hsc, hl, hh]
      · by_cases hcnt : room.ready_players.length < (keysA room.players).length
        · left
          simp [handleStartGame, hsc, hl, hh, hcnt]
        · right; right; left
          refine ⟨rc, room, Room.mk room.host
              (room.players.map (fun p => (p.1, { p.2 with alive := true })))
              true 1
              ((keysA room.players).foldl (fun lw id => match lookupA lw id with
                | some v => if v = 0 then setA lw id 0 else lw
                | none => setA lw id 0) room.level_wins)
              room.ready_players [] [],
            hl, ?_, keysA_subset_lwInit (keysA room.players) room.level_wins,
            Or.inr (Or.inl ⟨rfl, rfl⟩)⟩
          simp [handleStartGame, hsc, hl, hh, hcnt]

theorem handlePlayerDied_shape (rooms : Rooms) (c : Nat) (sess : Session) (x y : Int) :
    ShapeE rooms (handlePlayerDied rooms c sess x y) := by
  cases hsc : sess.playerRoomCode with
  | none => simp [handlePlayerDied, hsc, ShapeE, RoomsShape]
  | some rc =>
    cases hl : lookupA rooms rc with
    | none => simp [handlePlayerDied, hsc, hl, ShapeE, RoomsShape]
    | some room =>
      cases hpl : lookupA room.players (sess.playerId.getD "null") with
      | none => simp [handlePlayerDied, hsc, hl, hpl, ShapeE]
      | some pl =>
        have heq : (handlePlayerDied rooms c sess x y) = .ok (setA rooms rc
            (Room.mk room.host
              (setA room.players (sess.playerId.getD "null") { pl with alive := false })
              room.started room.current_level room.level_wins room.ready_players
              room.finished_players
              (setA room.death_placeholders (sess.playerId.getD "null") ⟨x, y⟩)),
            ((setA room.players (sess.playerId.getD "null")
                { pl with alive := false }).filter (fun p => p.2.ws ≠ c)).map
              (fun p => (p.2.ws, Out.player_died (sess.playerId.getD "null") x y)) ++
            [(c, Out.you_died x y)]) := by
          simp [handlePlayerDied, hsc, hl, hpl]
        rw [heq]
        show RoomsShape rooms (setA rooms rc _, _).1
        right; right; left
        exact ⟨rc, room, _, hl, rfl, List.Subset.refl _, Or.inl ⟨rfl, rfl⟩⟩

theorem handleRevivePlayer_shape (rooms : Rooms) (sess : Session) (tid : String) :
    ShapeE rooms (handleRevivePlayer rooms sess tid) := by
  cases hsc : sess.playerRoomCode with
  | none => simp [handleRevivePlayer, hsc, ShapeE, RoomsShape]
  | some rc =>
    cases hl : lookupA rooms rc with
    | none => simp [handleRevivePlayer, hsc, hl, ShapeE, RoomsShape]
    | some room =>
      cases hdp : lookupA room.death_placeholders tid with
      | none => simp [handleRevivePlayer, hsc, hl, hdp, ShapeE, RoomsShape]
      | some pos =>
        cases hpl : lookupA room.players tid with
        | none => simp [handleRevivePlayer, hsc, hl, hdp, hpl, ShapeE]
        | some pl =>
          have heq : handleRevivePlayer rooms sess tid = .ok (setA rooms rc
              (Room.mk room.host
                (setA room.players tid { pl with alive := true })
                room.started room.current_level room.level_wins room.ready_players
                room.finished_players (removeA room.death_placeholders tid)),
              (setA room.players tid { pl with alive := true }).map
                (fun p => (p.2.ws, Out.player_revived tid (sess.playerId.getD "null")
                  pos.x pos.y))) := by
            simp [handleRevivePlayer, hsc, hl, hdp, hpl]
          rw [heq]
          show RoomsShape rooms (setA rooms rc _, _).1
          right; right; left
          exact ⟨rc, room, _, hl, rfl, List.Subset.refl _, Or.inl ⟨rfl, rfl⟩⟩

theorem handlePlayerFinished_shape (rooms : Rooms) (sess : Session) :
    RoomsShape rooms (handlePlayerFinished rooms sess).1 := by
  cases hsc : sess.playerRoomCode with
  | none => left; simp [handlePlayerFinished, hsc]
  | some rc =>
    cases hl : lookupA rooms rc with
    | none => left; simp [handlePlayerFinished, hsc, hl]
    | some room =>
      right; right; left
      refine ⟨rc, room, Room.mk room.host room.players room.started room.current_level
          (if (addS room.finished_players (sess.playerId.getD "null")).length = 1 then
            setA room.level_wins (sess.playerId.getD "null")
              ((lookupA room.level_wins (sess.playerId.getD "null")).getD 0 + 1)
          else room.level_wins)
          room.ready_players (addS room.finished_players (sess.playerId.getD "null"))
          room.death_placeholders,
        hl, ?_, ?_, Or.inl ⟨rfl, rfl⟩⟩
      · by_cases hone : (addS room.finished_players (sess.playerId.getD "null")).length = 1
        · simp [handlePlayerFinished, hsc, hl, hone]
        · simp [handlePlayerFinished, hsc, hl, hone]
      · by_cases hone : (addS room.finished_players (sess.playerId.getD "null")).length = 1
        · rw [if_pos hone]
          exact keysA_subset_setA room.level_wins _ _
        · rw [if_neg hone]
          exact List.Subset.refl _

theorem handleClose_shape (rooms : Rooms) (sess : Session) :
    RoomsShape rooms (handleClose rooms sess).1 := by
  cases hsc : sess.playerRoomCode with
  | none => left; simp [handleClose, hsc]
  | some rc =>
    cases hl : lookupA rooms rc with
    | none => left; simp [handleClose, hsc, hl]
    | some room =>
      by_cases h0 : (keysA (removeA room.players (sess.playerId.getD "null"))).length = 0
      · right; right; right
        refine ⟨rc, ?_⟩
        simp [handleClose, hsc, hl, h0]
      · by_cases hh : room.host = sess.playerId.getD "null"
        · right; right; left
          refine ⟨rc, room, Room.mk
              ((keysA (removeA room.players (sess.playerId.getD "null"))).headD "")
              (removeA room.players (sess.playerId.getD "null"))
              room.started room.current_level room.level_wins
              (delS room.ready_players (sess.playerId.getD "null"))
              (delS room.finished_players (sess.playerId.getD "null"))
              (removeA room.death_placeholders (sess.playerId.getD "null")),
            hl, ?_, List.Subset.refl _, Or.inl ⟨rfl, rfl⟩⟩
          simp [handleClose, hsc, hl, h0, hh]
        · right; right; left
          refine ⟨rc, room, Room.mk room.host
              (removeA room.players (sess.playerId.getD "null"))
              room.started room.current_level room.level_wins
              (delS room.ready_players (sess.playerId.getD "null"))
              (delS room.finished_players (sess.playerId.getD "null"))
              (removeA room.death_placeholders (sess.playerId.getD "null")),
            hl, ?_, List.Subset.refl _, Or.inl ⟨rfl, rfl⟩⟩
          simp [handleClose, hsc, hl, h0, hh]

theorem advanceLevel_shape (rooms : Rooms) (rc : String) :
    RoomsShape rooms (advanceLevel rooms rc).1 := by
  cases hl : lookupA rooms rc with
  | none => left; simp [advanceLevel, hl]
  | some room =>
    right; right; left
    by_cases h20 : 20 < room.current_level + 1
    · refine ⟨rc, room, Room.mk room.host
          (room.players.map (fun p => (p.1, { p.2 with alive := true })))
          false (room.current_level + 1) room.level_wins room.ready_players [] [],
        hl, ?_, List.Subset.refl _, Or.inr (Or.inr ⟨rfl, fun _ => rfl⟩)⟩
      simp [advanceLevel, hl, h20]
    · refine ⟨rc, room, Room.mk room.host
          (room.players.map (fun p => (p.1, { p.2 with alive := true })))
          room.started (room.current_level + 1) room.level_wins room.ready_players [] [],
        hl, ?_, List.Subset.refl _, Or.inr (Or.inr ⟨rfl, fun hx => absurd hx h20⟩)⟩
      simp [advanceLevel, hl, h20]

theorem ok_inj {A B : Type} {a c : A} {b d : B}
    (h : (Except.ok (a, b) : Except Unit (A × B)) = .ok (c, d)) : c = a ∧ d = b := by
  injection h with h'
  injection h' with h1 h2
  exact ⟨h1.symm, h2.symm⟩

theorem step_shape (s s' : ServerState) (e : Event) (outs : List Send)
    (h : step s e = .ok (s', outs)) : RoomsShape s.rooms s'.rooms := by
  cases e with
  | connect c =>
    simp only [step] at h
    split at h
    · obtain ⟨h1, h2⟩ := ok_inj h
      subst h1
      exact Or.inl rfl
    · obtain ⟨h1, h2⟩ := ok_inj h
      subst h1
      exact Or.inl rfl
  | msg c m =>
    cases m with
    | create_room code pname color =>
      simp only [step] at h
      split at h
      · obtain ⟨h1, h2⟩ := ok_inj h
        subst h1
        exact Or.inl rfl
      · rename_i sess hsess
        split at h
        · obtain ⟨h1, h2⟩ := ok_inj h
          subst h1
          exact Or.inl rfl
        · obtain ⟨h1, h2⟩ := ok_inj h
          subst h1
          exact handleCreateRoom_shape s.rooms c sess code pname color
    | join_room room_code pname color rnd =>
      simp only [step] at h
      split at h
      · obtain ⟨h1, h2⟩ := ok_inj h
        subst h1
        exact Or.inl rfl
      · rename_i sess hsess
        split at h
        · obtain ⟨h1, h2⟩ := ok_inj h
          subst h1
          exact Or.inl rfl
        · obtain ⟨h1, h2⟩ := ok_inj h
          subst h1
          exact handleJoinRoom_shape s.rooms c sess room_code pname color rnd
    | player_ready rdy =>
      simp only [step] at h
      split at h
      · obtain ⟨h1, h2⟩ := ok_inj h
        subst h1
        exact Or.inl rfl
      · rename_i sess hsess
        split at h
        · obtain ⟨h1, h2⟩ := ok_inj h
          subst h1
          exact Or.inl rfl
        · split at h
          · cases h
          · rename_i rooms0 outs0 heq
            obtain ⟨h1, h2⟩ := ok_inj h
            subst h1
            have hs := handlePlayerReady_shape s.rooms sess rdy
            rw [heq] at hs
            exact hs
    | start_game =>
      simp only [step] at h
      split at h
      · obtain ⟨h1, h2⟩ := ok_inj h
        subst h1
        exact Or.inl rfl
      · rename_i sess hsess
        split at h
        · obtain ⟨h1, h2⟩ := ok_inj h
          subst h1
          exact Or.inl rfl
        · obtain ⟨h1, h2⟩ := ok_inj h
          subst h1
          exact handleStartGame_shape s.rooms c sess
    | player_position x y =>
      simp only [step] at h
      split at h
      · obtain ⟨h1, h2⟩ := ok_inj h
        subst h1
        exact Or.inl rfl
      · split at h
        · obtain ⟨h1, h2⟩ := ok_inj h
          subst h1
          exact Or.inl rfl
        · obtain ⟨h1, h2⟩ := ok_inj h
          subst h1
          exact Or.inl rfl
    | player_died x y =>
      simp only [step] at h
      split at h
      · obtain ⟨h1, h2⟩ := ok_inj h
        subst h1
        exact Or.inl rfl
      · rename_i sess hsess
        split at h
        · obtain ⟨h1, h2⟩ := ok_inj h
          subst h1
          exact Or.inl rfl
        · split at h
          · cases h
          · rename_i rooms0 outs0 heq
            obtain ⟨h1, h2⟩ := ok_inj h
            subst h1
            have hs := handlePlayerDied_shape s.rooms c sess x y
            rw [heq] at hs
            exact hs
    | revive_player tid =>
      simp only [step] at h
      split at h
      · obtain ⟨h1, h2⟩ := ok_inj h
        subst h1
        exact Or.inl rfl
      · rename_i sess hsess
        split at h
        · obtain ⟨h1, h2⟩ := ok_inj h
          subst h1
          exact Or.inl rfl
        · split at h
          · cases h
          · rename_i rooms0 outs0 heq
            obtain ⟨h1, h2⟩ := ok_inj h
            subst h1
            have hs := handleRevivePlayer_shape s.rooms sess tid
            rw [heq] at hs
            exact hs
    | player_finished =>
      simp only [step] at h
      split at h
      · obtain ⟨h1, h2⟩ := ok_inj h
        subst h1
        exact Or.inl rfl
      · rename_i sess hsess
        split at h
        · obtain ⟨h1, h2⟩ := ok_inj h
          subst h1
          exact Or.inl rfl
        · obtain ⟨h1, h2⟩ := ok_inj h
          subst h1
          exact handlePlayerFinished_shape s.rooms sess
    | lobby_position x y =>
      simp only [step] at h
      split at h
      · obtain ⟨h1, h2⟩ := ok_inj h
        subst h1
        exact Or.inl rfl
      · split at h
        · obtain ⟨h1, h2⟩ := ok_inj h
          subst h1
          exact Or.inl rfl
        · obtain ⟨h1, h2⟩ := ok_inj h
          subst h1
          exact Or.inl rfl
  | close c =>
    simp only [step] at h
    split at h
    · obtain ⟨h1, h2⟩ := ok_inj h
      subst h1
      exact Or.inl rfl
    · rename_i sess hsess
      split at h
      · obtain ⟨h1, h2⟩ := ok_inj h
        subst h1
        exact Or.inl rfl
      · obtain ⟨h1, h2⟩ := ok_inj h
        subst h1
        exact handleClose_shape s.rooms sess
  | fire c =>
    simp only [step] at h
    split at h
    · split at h
      · rename_i rc hrc
        obtain ⟨h1, h2⟩ := ok_inj h
        subst h1
        exact advanceLevel_shape s.rooms rc
      · obtain ⟨h1, h2⟩ := ok_inj h
        subst h1
        exact Or.inl rfl
    · obtain ⟨h1, h2⟩ := ok_inj h
      subst h1
      exact Or.inl rfl

theorem RoomsOk_of_shape (rooms rooms' : Rooms) (hok : RoomsOk rooms)
    (hshape : RoomsShape rooms rooms') : RoomsOk rooms' := by
  rcases hshape with heq | ⟨code, nr, hnone, heq, hlv, hst, hlw⟩ |
      ⟨code, room, room', hsome, heq, hsub, hrel⟩ | ⟨code, heq⟩
  · rw [heq]
    exact hok
  · subst heq
    intro p hp
    rcases mem_setA rooms code nr p hp with hpe | hpm
    · subst hpe
      show 1 ≤ nr.current_level ∧ (20 < nr.current_level → nr.started = false)
      refine ⟨by omega, fun hx => ?_⟩
      rw [hlv] at hx
      omega
    · exact hok p hpm
  · subst heq
    intro p hp
    rcases mem_setA rooms code room' p hp with hpe | hpm
    · subst hpe
      show 1 ≤ room'.current_level ∧ (20 < room'.current_level → room'.started = false)
      have hold := hok (code, room) (lookupA_some_mem rooms code room hsome)
      rcases hrel with ⟨hl1, hl2⟩ | ⟨hl1, hl2⟩ | ⟨hl1, hl2⟩
      · constructor
        · rw [hl1]
          exact hold.1
        · intro hx
          rw [hl2]
          exact hold.2 (hl1 ▸ hx)
      · refine ⟨by rw [hl1], fun hx => ?_⟩
        rw [hl1] at hx
        omega
      · refine ⟨by rw [hl1]; omega, hl2⟩
    · exact hok p hpm
  · subst heq
    intro p hp
    exact hok p (mem_removeA rooms code p hp)

theorem runEvents_roomsOk : ∀ (evts : List Event) (s s' : ServerState),
    runEvents s evts = .ok s' → RoomsOk s.rooms → RoomsOk s'.rooms := by
  intro evts
  induction evts with
  | nil =>
    intro s s' h hok
    rw [runEvents] at h
    injection h with h'
    rw [← h']
    exact hok
  | cons e rest ih =>
    intro s s' h hok
    rw [runEvents] at h
    cases hstep : step s e with
    | error err =>
      rw [hstep] at h
      cases h
    | ok p =>
      rw [hstep] at h
      exact ih p.1 s' h (RoomsOk_of_shape s.rooms p.1.rooms hok
        (step_shape s p.1 e p.2 (by rw [hstep])))

/-- C3 (amended): in every reachable state, every live room's `currentLevel`
is an integer at least 1, and it exceeds 20 only once the match has ended
(`started = false`).  The original upper bound of 21 does not hold: a
`player_finished` sent after game over schedules a level-advance timer that
pushes `currentLevel` to 22 (see the counterexample), and nothing stops this
from repeating. -/
theorem current_level_invariant (s : ServerState) (h : Reachable s) :
    ∀ p ∈ s.rooms, 1 ≤ p.2.current_level ∧ (20 < p.2.current_level → p.2.started = false) := by
  obtain ⟨evts, hrun⟩ := h
  refine runEvents_roomsOk evts initState s hrun ?_
  intro p hp
  cases hp

/-- C3 witness: the room `AAAA` of the state reached by creating it satisfies
the invariant (level 1, lobby). -/
theorem current_level_invariant_witness :
    1 ≤ (Room.mk "A" [("A", playerA)] false 1 [] [] [] []).current_level ∧
    (20 < (Room.mk "A" [("A", playerA)] false 1 [] [] [] []).current_level →
      (Room.mk "A" [("A", playerA)] false 1 [] [] [] []).started = false) :=
  current_level_invariant
    (ServerState.mk [("AAAA", Room.mk "A" [("A", playerA)] false 1 [] [] [] [])]
      [(0, ⟨some "AAAA", some "A"⟩)] [] [])
    ⟨[Event.connect 0, Event.msg 0 (CMsg.create_room "AAAA" "A" "")], rfl⟩
    ("AAAA", Room.mk "A" [("A", playerA)] false 1 [] [] [] [])
    (List.mem_cons_self _ _)

/-- C3 counterexample: the sole player of room `AAAA` starts the match and
then finishes each level; firing the 3-second timer 20 times walks
`currentLevel` to 21 and ends the match, but `player_finished` is still
accepted afterwards, schedules another timer, and that timer's advancement
drives `currentLevel` to 22 — outside the claimed range 1..21. -/
theorem current_level_exceeds_21_cex :
    (runEvents initState c3trace).toOption.bind (fun s =>
      (lookupA s.rooms "AAAA").map (fun r => (r.current_level, r.started))) =
      some (22, false) := by
  decide

theorem not_mem_delS (s : List String) (x : String) : x ∉ delS s x :=
  fun h => ((mem_delS s x x).mp h).2 rfl

theorem lw_key_of_shape (rooms rooms' : Rooms) (rc : String) (room : Room) (pid : String)
    (hshape : RoomsShape rooms rooms') (hr : lookupA rooms rc = some room)
    (hk : pid ∈ keysA room.level_wins) :
    ∀ room'', lookupA rooms' rc = some room'' → pid ∈ keysA room''.level_wins := by
  intro room'' h''
  rcases hshape with heq | ⟨code, nr, hnone, heq, hlv, hst, hlw⟩ |
      ⟨code, r0, r1, hsome, heq, hsub, hrel⟩ | ⟨code, heq⟩
  · rw [heq, hr] at h''
    injection h'' with h''
    rw [← h'']
    exact hk
  · subst heq
    by_cases hc : rc = code
    · subst hc
      rw [hr] at hnone
      cases hnone
    · rw [lookupA_setA_ne rooms code rc nr hc, hr] at h''
      injection h'' with h''
      rw [← h'']
      exact hk
  · subst heq
    by_cases hc : rc = code
    · subst hc
      rw [lookupA_setA_self rooms rc r1] at h''
      injection h'' with h''
      rw [hr] at hsome
      injection hsome with hsome
      rw [← h'']
      exact hsub (by rw [← hsome]; exact hk)
    · rw [lookupA_setA_ne rooms code rc r1 hc, hr] at h''
      injection h'' with h''
      rw [← h'']
      exact hk
  · subst heq
    by_cases hc : rc = code
    · subst hc
      rw [lookupA_removeA_self] at h''
      cases h''
    · rw [lookupA_removeA_ne rooms code rc hc, hr] at h''
      injection h'' with h''
      rw [← h'']
      exact hk

/-- C10: disconnect removes the departing player from `players`, `readyIds`,
`finishedIds` and `deathPlaceholders` but leaves `levelWins` untouched; no
processed event ever removes a `levelWins` key while the room persists; and
both the `player_finished` and `game_over` broadcasts embed the room's full
`levelWins` table — so after a mid-match disconnect every subsequent
`player_finished` or `game_over` message still carries the departed player's
win count. -/
theorem level_wins_survive_disconnect
    (rooms : Rooms) (sess : Session) (rc : String) (room : Room) (pid : String)
    (hrc : sess.playerRoomCode = some rc)
    (hpid : sess.playerId = some pid)
    (hr : lookupA rooms rc = some room) :
    (∀ room', lookupA (handleClose rooms sess).1 rc = some room' →
      room'.level_wins = room.level_wins ∧ lookupA room'.players pid = none ∧
      pid ∉ room'.ready_players ∧ pid ∉ room'.finished_players ∧
      lookupA room'.death_placeholders pid = none) ∧
    (∀ (s s' : ServerState) (e : Event) (outs : List Send) (r r' : Room),
      step s e = .ok (s', outs) → lookupA s.rooms rc = some r →
      pid ∈ keysA r.level_wins → lookupA s'.rooms rc = some r' →
      pid ∈ keysA r'.level_wins) ∧
    (∀ (rooms2 : Rooms) (sess2 : Session) (r : Room), sess2.playerRoomCode = some rc →
      lookupA rooms2 rc = some r → pid ∈ keysA r.level_wins →
      ∀ t fid ff fc tc lw, (t, Out.player_finished fid ff fc tc lw) ∈
        (handlePlayerFinished rooms2 sess2).2.1 → pid ∈ keysA lw) ∧
    (∀ (rooms2 : Rooms) (r : Room), lookupA rooms2 rc = some r →
      pid ∈ keysA r.level_wins →
      ∀ t lw, (t, Out.game_over lw) ∈ (advanceLevel rooms2 rc).2 → pid ∈ keysA lw) := by
  refine ⟨?_, ?_, ?_, ?_⟩
  · have hshape : (handleClose rooms sess).1 = removeA rooms rc ∨
        ∃ room', (handleClose rooms sess).1 = setA rooms rc room' ∧
          room'.players = removeA room.players pid ∧
          room'.level_wins = room.level_wins ∧
          room'.ready_players = delS room.ready_players pid ∧
          room'.finished_players = delS room.finished_players pid ∧
          room'.death_placeholders = removeA room.death_placeholders pid := by
      by_cases h0 : (keysA (removeA room.players pid)).length = 0
      · left
        simp [handleClose, hrc, hpid, hr, h0]
      · by_cases h1 : room.host = pid
        · right
          refine ⟨Room.mk ((keysA (removeA room.players pid)).headD "")
              (removeA room.players pid) room.started room.current_level room.level_wins
              (delS room.ready_players pid) (delS room.finished_players pid)
              (removeA room.death_placeholders pid), ?_, rfl, rfl, rfl, rfl, rfl⟩
          simp [handleClose, hrc, hpid, hr, h0, h1]
        · right
          refine ⟨Room.mk room.host
              (removeA room.players pid) room.started room.current_level room.level_wins
              (delS room.ready_players pid) (delS room.finished_players pid)
              (removeA room.death_placeholders pid), ?_, rfl, rfl, rfl, rfl, rfl⟩
          simp [handleClose, hrc, hpid, hr, h0, h1]
    intro room' hlook
    rcases hshape with hdel | ⟨room0, hset, hp1, hp2, hp3, hp4, hp5⟩
    · rw [hdel, lookupA_removeA_self] at hlook
      cases hlook
    · rw [hset, lookupA_setA_self] at hlook
      injection hlook with hlook
      subst hlook
      refine ⟨hp2, ?_, ?_, ?_, ?_⟩
      · rw [hp1]
        exact lookupA_removeA_self room.players pid
      · rw [hp3]
        exact not_mem_delS room.ready_players pid
      · rw [hp4]
        exact not_mem_delS room.finished_players pid
      · rw [hp5]
        exact lookupA_removeA_self room.death_placeholders pid
  · intro s s' e outs r r' hstep hlr hkey hlr'
    exact lw_key_of_shape s.rooms s'.rooms rc r pid
      (step_shape s s' e outs hstep) hlr hkey r' hlr'
  · intro rooms2 sess2 r hsc2 hl2 hk2 t fid ff fc tc lw hmem
    by_cases hone : (addS r.finished_players (sess2.playerId.getD "null")).length = 1
    · simp only [handlePlayerFinished, hsc2, hl2, if_pos hone, List.mem_map] at hmem
      obtain ⟨p, hp, heq⟩ := hmem
      have h2 := congrArg Prod.snd heq
      simp only [Prod.snd] at h2
      injection h2 with a1 a2 a3 a4 a5
      rw [← a5]
      exact keysA_subset_setA r.level_wins _ _ hk2
    · simp only [handlePlayerFinished, hsc2, hl2, if_neg hone, List.mem_map] at hmem
      obtain ⟨p, hp, heq⟩ := hmem
      have h2 := congrArg Prod.snd heq
      simp only [Prod.snd] at h2
      injection h2 with a1 a2 a3 a4 a5
      rw [← a5]
      exact hk2
  · intro rooms2 r hl2 hk2 t lw hmem
    by_cases h20 : 20 < r.current_level + 1
    · simp only [advanceLevel, hl2, if_pos h20, List.mem_map] at hmem
      obtain ⟨p, hp, heq⟩ := hmem
      have h2 := congrArg Prod.snd heq
      simp only [Prod.snd] at h2
      injection h2 with a1
      rw [← a1]
      exact hk2
    · simp only [advanceLevel, hl2, if_neg h20, List.mem_map] at hmem
      obtain ⟨p, hp, heq⟩ := hmem
      have h2 := congrArg Prod.snd heq
      simp only [Prod.snd] at h2
      cases h2

/-- C10 witness: `A` (who holds a `levelWins` entry) disconnecting from room
`AAAA` keeps the win table intact while being removed from the roster and the
per-level sets, and the broadcast/table properties hold at this input. -/
theorem level_wins_survive_disconnect_witness :
    (∀ room', lookupA (handleClose roomsDead ⟨some "AAAA", some "A"⟩).1 "AAAA" = some room' →
      room'.level_wins = roomDead.level_wins ∧ lookupA room'.players "A" = none ∧
      "A" ∉ room'.ready_players ∧ "A" ∉ room'.finished_players ∧
      lookupA room'.death_placeholders "A" = none) ∧
    (∀ (s s' : ServerState) (e : Event) (outs : List Send) (r r' : Room),
      step s e = .ok (s', outs) → lookupA s.rooms "AAAA" = some r →
      "A" ∈ keysA r.level_wins → lookupA s'.rooms "AAAA" = some r' →
      "A" ∈ keysA r'.level_wins) ∧
    (∀ (rooms2 : Rooms) (sess2 : Session) (r : Room), sess2.playerRoomCode = some "AAAA" →
      lookupA rooms2 "AAAA" = some r → "A" ∈ keysA r.level_wins →
      ∀ t fid ff fc tc lw, (t, Out.player_finished fid ff fc tc lw) ∈
        (handlePlayerFinished rooms2 sess2).2.1 → "A" ∈ keysA lw) ∧
    (∀ (rooms2 : Rooms) (r : Room), lookupA rooms2 "AAAA" = some r →
      "A" ∈ keysA r.level_wins →
      ∀ t lw, (t, Out.game_over lw) ∈ (advanceLevel rooms2 "AAAA").2 → "A" ∈ keysA lw) :=
  level_wins_survive_disconnect roomsDead ⟨some "AAAA", some "A"⟩ "AAAA" roomDead "A"
    rfl rfl (by decide)

end DodgeServer
